import Mathlib

/-!
Verification of the display-row layout engine, synchronized wrapper and
line-anchored comment model of the `mdiff` terminal diff-review tool.

The definitions below are a shallow embedding of the Rust sources:
  * `src/display_map.rs`     — gap filter and display-row mappers,
  * `src/components/diff_view.rs` — split-pane line builder and wrapper,
  * `src/state/annotation_state.rs` — line-anchored comment store.

Machine integers (`usize`, `u32`) are modelled as `Nat`; none of the
embedded arithmetic can overflow in the source for realistic inputs, and
the only subtraction sites are guarded (the guards are reproduced).
Rust `HashMap<usize, usize>` is modelled as an association list with a
get-or-zero lookup, matching `map.get(&k).copied().unwrap_or(0)`.
-/

namespace MDiff

/-- Origin tag of a diff line (`DiffLineOrigin` in `git/types.rs`).
The source also declares a `HunkHeader` variant marked `#[allow(dead_code)]`
that is never constructed and not handled by the display-map matches; the
embedding omits it so that every `match` in the embedding is exhaustive
exactly where the source's are. -/
inductive DiffLineOrigin where
  | Context
  | Addition
  | Deletion
deriving DecidableEq, Repr

/-- One diff line (`DiffLine` in `git/types.rs`). -/
structure DiffLine where
  origin : DiffLineOrigin
  old_lineno : Option Nat
  new_lineno : Option Nat
  content : String
deriving DecidableEq, Repr

/-- One hunk (`Hunk` in `git/types.rs`). -/
structure Hunk where
  header : String
  old_start : Nat
  old_lines : Nat
  new_start : Nat
  new_lines : Nat
  lines : List DiffLine
deriving DecidableEq, Repr

/-- File status (`FileStatus` in `git/types.rs`). -/
inductive FileStatus where
  | Added
  | Deleted
  | Modified
  | Renamed
  | Untracked
deriving DecidableEq, Repr

/-- A file delta (`FileDelta` in `git/types.rs`); `PathBuf` is modelled as
`String`. -/
structure FileDelta where
  path : String
  old_path : Option String
  status : FileStatus
  hunks : List Hunk
  additions : Nat
  deletions : Nat
  binary : Bool
deriving DecidableEq, Repr

/-- Direction a collapsed indicator expands toward (`ExpandDirection`). -/
inductive ExpandDirection where
  | Down
  | Up
deriving DecidableEq, Repr

/-- A filtered item from a hunk (`FilteredItem` in `display_map.rs`): either a
visible line (with its index in the hunk's line list) or a collapsed
indicator. -/
inductive FilteredItem where
  | line (line : DiffLine) (hunk_line_index : Nat)
  | collapsedIndicator (hidden_count : Nat) (gap_id : Nat) (direction : ExpandDirection)
deriving DecidableEq, Repr

/-- The `HashMap<usize, usize>` of gap expansions, as an association list. -/
abbrev GapExpansions := List (Nat × Nat)

/-- `gap_expansions.get(&k).copied().unwrap_or(0)`. -/
def GapExpansions.get (m : GapExpansions) (k : Nat) : Nat :=
  match m.lookup k with
  | some v => v
  | none => 0

/-- Length of the maximal prefix of consecutive `Context` lines; this is
`run_end - run_start` for the run collected by the inner `while` loop of
`filter_hunk_lines`. -/
def countContextRun : List DiffLine → Nat
  | [] => 0
  | l :: rest =>
    if l.origin = DiffLineOrigin.Context then countContextRun rest + 1 else 0

/-- Emit a list of lines as `FilteredItem.line` items, with hunk line indices
starting at `start`; mirrors the
`for (idx, line) in lines[a..b].iter().enumerate()` emission loops of
`filter_hunk_lines`. -/
def runLines (run : List DiffLine) (start : Nat) : List FilteredItem :=
  run.enum.map fun p => FilteredItem.line p.2 (start + p.1)

/-- The body of `filter_hunk_lines`' main loop for one maximal context run
(`display_map.rs` lines 54–184): decide between full emission and one or two
collapsed indicators, and advance the gap-id counter.  `run` is
`lines[run_start..run_end]`, `has_change_before` is `run_start > 0` and
`has_change_after` is `run_end < lines.len()`. -/
def processRun (run : List DiffLine) (run_start : Nat)
    (has_change_before has_change_after : Bool)
    (display_context : Nat) (gap_expansions : GapExpansions) (gap_id : Nat) :
    List FilteredItem × Nat :=
  let total := run.length
  let show_after_prev := if has_change_before then display_context else 0
  let show_before_next := if has_change_after then display_context else 0
  let baseline_total := show_after_prev + show_before_next
  if baseline_total ≥ total then
    -- Show all context lines, no gap possible
    (runLines run run_start, gap_id)
  else if has_change_before && has_change_after then
    -- Between two diffs: two indicators with independent expansion.
    let top_gap_id := gap_id
    let bottom_gap_id := gap_id + 1
    let top_extra := gap_expansions.get top_gap_id
    let bottom_extra := gap_expansions.get bottom_gap_id
    let show_top := show_after_prev + top_extra
    let show_bottom := show_before_next + bottom_extra
    let total_show := show_top + show_bottom
    if total_show ≥ total then
      (runLines run run_start, gap_id + 2)
    else
      let hidden := total - total_show
      (runLines (run.take show_top) run_start
        ++ [FilteredItem.collapsedIndicator hidden top_gap_id ExpandDirection.Down]
        ++ [FilteredItem.collapsedIndicator hidden bottom_gap_id ExpandDirection.Up]
        ++ runLines (run.drop (total - show_bottom)) (run_start + (total - show_bottom)),
       gap_id + 2)
  else
    -- Single-sided gap: one indicator.
    let extra := gap_expansions.get gap_id
    let st := if !has_change_before then (show_after_prev, show_before_next + extra)
              else (show_after_prev + extra, show_before_next)
    let show_top := st.1
    let show_bottom := st.2
    let total_show := show_top + show_bottom
    if total_show ≥ total then
      (runLines run run_start, gap_id + 1)
    else
      let hidden := total - total_show
      let direction := if !has_change_before then ExpandDirection.Up else ExpandDirection.Down
      (runLines (run.take show_top) run_start
        ++ [FilteredItem.collapsedIndicator hidden gap_id direction]
        ++ runLines (run.drop (total - show_bottom)) (run_start + (total - show_bottom)),
       gap_id + 1)

/-- The main loop of `filter_hunk_lines`: `rem` is `lines[pos..]`.  Non-context
lines pass through; a maximal context run is handed to `processRun`. -/
def filterAux (display_context : Nat) (gap_expansions : GapExpansions)
    (rem : List DiffLine) (pos gap_id : Nat) : List FilteredItem × Nat :=
  match rem with
  | [] => ([], gap_id)
  | l :: rest =>
    if hc : l.origin = DiffLineOrigin.Context then
      let run := (l :: rest).take (countContextRun (l :: rest))
      let after := (l :: rest).drop (countContextRun (l :: rest))
      let pr := processRun run pos (pos != 0) (!after.isEmpty)
          display_context gap_expansions gap_id
      let tl := filterAux display_context gap_expansions after
          (pos + countContextRun (l :: rest)) pr.2
      (pr.1 ++ tl.1, tl.2)
    else
      let tl := filterAux display_context gap_expansions rest (pos + 1) gap_id
      (FilteredItem.line l pos :: tl.1, tl.2)
termination_by rem.length
decreasing_by
  · have hpos : 0 < countContextRun (l :: rest) := by
      simp [countContextRun, hc]
    simp only [List.length_drop, List.length_cons]
    omega
  · simp

/-- `filter_hunk_lines` (`display_map.rs` lines 29–188): filter a hunk's
lines, collapsing context runs that exceed the display window.  Returns
`(filtered_items, next_gap_id_offset)`. -/
def filterHunkLines (lines : List DiffLine) (display_context : Nat)
    (gap_expansions : GapExpansions) (gap_id_offset : Nat) :
    List FilteredItem × Nat :=
  filterAux display_context gap_expansions lines 0 gap_id_offset

/-! ### usize-faithful model of the gap filter (release semantics)

Rust slice expressions `&lines[a..b]` panic when `a > b` or when `b` exceeds
the slice length, and every `usize` `+`/`-` in `filter_hunk_lines`
(`show_after_prev + extra`, `show_top + show_bottom`, `run_start + show_top`,
`run_end - show_bottom`, `gap_id + 1`, `gap_id + 2`) wraps modulo `2^64` in
release builds; with overflow checks (debug builds) those operations panic
even earlier, so any input on which this wrapping model faults also faults
under debug semantics.  `processRunWrap` and `filterHunkLinesWrap` reproduce
the release behavior — wrapping arithmetic on absolute indices into the full
line list, with every slice bound checked — returning `none` exactly when
the source would panic at a slice. -/

/-- Checked model of the Rust slice `&l[s..e]`. -/
def slice? (l : List DiffLine) (s e : Nat) : Option (List DiffLine) :=
  if s ≤ e ∧ e ≤ l.length then some ((l.drop s).take (e - s)) else none

/-- `2^64`, the modulus of `usize` arithmetic on the target. -/
def usizeSize : Nat := 2 ^ 64

/-- The result of a `usize` addition in release builds: wrap modulo `2^64`. -/
def wrap64 (n : Nat) : Nat := n % usizeSize

/-- The result of the `usize` subtraction `a - b` in release builds
(two's-complement wraparound), for `b ≤ usizeSize` as produced by `wrap64`
— in the source `b` is a `usize`, hence below `2^64`. -/
def wrapSub64 (a b : Nat) : Nat := (a + usizeSize - b) % usizeSize

/-- The per-run body of `filter_hunk_lines` with release-mode `usize`
arithmetic and checked slice bounds; `run_start`/`run_end` are absolute
indices into `lines`, exactly as in the source. -/
def processRunWrap (lines : List DiffLine) (run_start run_end : Nat)
    (has_change_before has_change_after : Bool)
    (display_context : Nat) (gap_expansions : GapExpansions) (gap_id : Nat) :
    Option (List FilteredItem × Nat) :=
  let total := run_end - run_start
  let run := (lines.drop run_start).take total
  let show_after_prev := if has_change_before then display_context else 0
  let show_before_next := if has_change_after then display_context else 0
  let baseline_total := wrap64 (show_after_prev + show_before_next)
  if baseline_total ≥ total then
    some (runLines run run_start, gap_id)
  else if has_change_before && has_change_after then
    let top_gap_id := gap_id
    let bottom_gap_id := wrap64 (gap_id + 1)
    let top_extra := gap_expansions.get top_gap_id
    let bottom_extra := gap_expansions.get bottom_gap_id
    let show_top := wrap64 (show_after_prev + top_extra)
    let show_bottom := wrap64 (show_before_next + bottom_extra)
    let total_show := wrap64 (show_top + show_bottom)
    if total_show ≥ total then
      some (runLines run run_start, wrap64 (gap_id + 2))
    else
      let hidden := total - total_show
      do
        let topSlice ← slice? lines run_start (wrap64 (run_start + show_top))
        let last_start := wrapSub64 run_end show_bottom
        let botSlice ← slice? lines last_start run_end
        some (runLines topSlice run_start
          ++ [FilteredItem.collapsedIndicator hidden top_gap_id ExpandDirection.Down]
          ++ [FilteredItem.collapsedIndicator hidden bottom_gap_id ExpandDirection.Up]
          ++ runLines botSlice last_start,
         wrap64 (gap_id + 2))
  else
    let extra := gap_expansions.get gap_id
    let st := if !has_change_before then (show_after_prev, wrap64 (show_before_next + extra))
              else (wrap64 (show_after_prev + extra), show_before_next)
    let show_top := st.1
    let show_bottom := st.2
    let total_show := wrap64 (show_top + show_bottom)
    if total_show ≥ total then
      some (runLines run run_start, wrap64 (gap_id + 1))
    else
      let hidden := total - total_show
      let direction := if !has_change_before then ExpandDirection.Up else ExpandDirection.Down
      do
        let topSlice ← slice? lines run_start (wrap64 (run_start + show_top))
        let last_start := wrapSub64 run_end show_bottom
        let botSlice ← slice? lines last_start run_end
        some (runLines topSlice run_start
          ++ [FilteredItem.collapsedIndicator hidden gap_id direction]
          ++ runLines botSlice last_start,
         wrap64 (gap_id + 1))

/-- The main loop of `filter_hunk_lines` over absolute index `i`, built on
the release-mode run processor. -/
def filterAuxWrap (display_context : Nat) (gap_expansions : GapExpansions)
    (lines : List DiffLine) (i gap_id : Nat) : Option (List FilteredItem × Nat) :=
  if h : i < lines.length then
    if hc : lines[i].origin = DiffLineOrigin.Context then
      do
        let pr ← processRunWrap lines i (i + countContextRun (lines.drop i))
            (i != 0) (decide (i + countContextRun (lines.drop i) < lines.length))
            display_context gap_expansions gap_id
        let tl ← filterAuxWrap display_context gap_expansions lines
            (i + countContextRun (lines.drop i)) pr.2
        some (pr.1 ++ tl.1, tl.2)
    else
      do
        let tl ← filterAuxWrap display_context gap_expansions lines (i + 1) gap_id
        some (FilteredItem.line lines[i] i :: tl.1, tl.2)
  else some ([], gap_id)
termination_by lines.length - i
decreasing_by
  · have hd : lines.drop i = lines[i] :: lines.drop (i + 1) :=
      List.drop_eq_getElem_cons h
    have hpos : 0 < countContextRun (lines.drop i) := by
      rw [hd]
      simp [countContextRun, hc]
    omega
  · omega

/-- `filter_hunk_lines` under release-mode `usize` semantics. -/
def filterHunkLinesWrap (lines : List DiffLine) (display_context : Nat)
    (gap_expansions : GapExpansions) (gap_id_offset : Nat) :
    Option (List FilteredItem × Nat) :=
  filterAuxWrap display_context gap_expansions lines 0 gap_id_offset

/-! ### Run decomposition and gap-id accounting helpers -/

/-- Number of items a list of filtered items shows as plain lines. -/
def visibleCount (items : List FilteredItem) : Nat :=
  (items.filter fun it => match it with
    | FilteredItem.line _ _ => true
    | _ => false).length

/-- The `hidden_count` values of the collapsed indicators among `items`. -/
def hiddenCounts (items : List FilteredItem) : List Nat :=
  items.filterMap fun it => match it with
    | FilteredItem.collapsedIndicator h _ _ => some h
    | _ => none

/-- The maximal context runs of a hunk's line list, as
`(has_change_before, has_change_after, run length)` triples in order;
`pos` is the absolute index of the head of `rem`. -/
def contextRunsAux (rem : List DiffLine) (pos : Nat) : List (Bool × Bool × Nat) :=
  match rem with
  | [] => []
  | l :: rest =>
    if hc : l.origin = DiffLineOrigin.Context then
      let n := countContextRun (l :: rest)
      let after := (l :: rest).drop n
      (pos != 0, !after.isEmpty, n) :: contextRunsAux after (pos + n)
    else
      contextRunsAux rest (pos + 1)
termination_by rem.length
decreasing_by
  · have hpos : 0 < countContextRun (l :: rest) := by
      simp [countContextRun, hc]
    simp only [List.length_drop, List.length_cons]
    omega
  · simp

/-- The maximal context runs of a hunk's line list. -/
def contextRuns (lines : List DiffLine) : List (Bool × Bool × Nat) :=
  contextRunsAux lines 0

/-- How many gap ids `filter_hunk_lines` consumes for one maximal context run:
none when the baseline context window already covers the run, two for a
two-sided run, one otherwise — independently of the expansion map. -/
def runWeight (display_context : Nat) : Bool × Bool × Nat → Nat
  | (hb, ha, total) =>
    let baseline := (if hb then display_context else 0) + (if ha then display_context else 0)
    if baseline ≥ total then 0
    else if hb && ha then 2
    else 1

/-! ### Display row mappers (`display_map.rs` lines 190–474)

The source's `DisplayRowInfo` additionally declares an
`expand_direction : Option<ExpandDirection>` field, but none of the struct
literals in `build_split_display_map` / `build_unified_display_map` populate
it and the `match`es on `FilteredItem::CollapsedIndicator` do not bind the
direction; the embedding therefore omits that field. -/

/-- Information about what a single display row maps to (`DisplayRowInfo`). -/
structure DisplayRowInfo where
  hunk_index : Nat
  line_index : Option Nat
  old_lineno : Option Nat
  new_lineno : Option Nat
  origin : Option DiffLineOrigin
  is_header : Bool
  is_collapsed_indicator : Bool
  gap_id : Option Nat
  hidden_count : Nat
deriving DecidableEq, Repr

/-- The hunk header row pushed at the top of each hunk. -/
def headerRow (hunk_idx : Nat) : DisplayRowInfo :=
  { hunk_index := hunk_idx, line_index := none, old_lineno := none,
    new_lineno := none, origin := none, is_header := true,
    is_collapsed_indicator := false, gap_id := none, hidden_count := 0 }

/-- The row for a collapsed-context indicator. -/
def indicatorRow (hunk_idx gid hidden : Nat) : DisplayRowInfo :=
  { hunk_index := hunk_idx, line_index := none, old_lineno := none,
    new_lineno := none, origin := none, is_header := false,
    is_collapsed_indicator := true, gap_id := some gid, hidden_count := hidden }

/-- Is this filtered item a visible `Deletion` line? (the guard of the
"collect consecutive deletions" loop). -/
def isDeletionLine : FilteredItem → Bool
  | FilteredItem.line l _ => l.origin = DiffLineOrigin.Deletion
  | _ => false

/-- Is this filtered item a visible `Addition` line? -/
def isAdditionLine : FilteredItem → Bool
  | FilteredItem.line l _ => l.origin = DiffLineOrigin.Addition
  | _ => false

/-- Extract `(line, hunk_line_index)` from a visible item (the `filter_map`
over collected deletion / addition items). -/
def extractLine : FilteredItem → Option (DiffLine × Nat)
  | FilteredItem.line l k => some (l, k)
  | _ => none

/-- The `for j in 0..max(dels.len(), adds.len())` pairing loop of
`build_split_display_map`: row `j` pairs deletion `j` (left / old side) with
addition `j` (right / new side); the exhausted side's fields stay `None`. -/
def pairRows (hunk_idx : Nat) :
    List (DiffLine × Nat) → List (DiffLine × Nat) → List DisplayRowInfo
  | [], [] => []
  | d :: ds, [] =>
    { hunk_index := hunk_idx, line_index := some d.2, old_lineno := d.1.old_lineno,
      new_lineno := none, origin := some DiffLineOrigin.Deletion, is_header := false,
      is_collapsed_indicator := false, gap_id := none, hidden_count := 0 }
      :: pairRows hunk_idx ds []
  | [], a :: as_ =>
    { hunk_index := hunk_idx, line_index := some a.2, old_lineno := none,
      new_lineno := a.1.new_lineno, origin := some DiffLineOrigin.Addition, is_header := false,
      is_collapsed_indicator := false, gap_id := none, hidden_count := 0 }
      :: pairRows hunk_idx [] as_
  | d :: ds, a :: as_ =>
    { hunk_index := hunk_idx, line_index := some d.2, old_lineno := d.1.old_lineno,
      new_lineno := a.1.new_lineno, origin := some DiffLineOrigin.Deletion, is_header := false,
      is_collapsed_indicator := false, gap_id := none, hidden_count := 0 }
      :: pairRows hunk_idx ds as_

/-- The item walk of `build_split_display_map` (its inner `while` loop):
context lines and indicators map to single rows, a maximal deletion block
followed by a maximal addition block is paired via `pairRows`, and a lone
addition block maps to right-side rows. -/
def splitWalk (hunk_idx : Nat) (items : List FilteredItem) : List DisplayRowInfo :=
  match items with
  | [] => []
  | it :: rest =>
    match it with
    | FilteredItem.collapsedIndicator hidden gid _dir =>
      indicatorRow hunk_idx gid hidden :: splitWalk hunk_idx rest
    | FilteredItem.line l k =>
      match ho : l.origin with
      | DiffLineOrigin.Context =>
        { hunk_index := hunk_idx, line_index := some k, old_lineno := l.old_lineno,
          new_lineno := l.new_lineno, origin := some DiffLineOrigin.Context, is_header := false,
          is_collapsed_indicator := false, gap_id := none, hidden_count := 0 }
          :: splitWalk hunk_idx rest
      | DiffLineOrigin.Addition =>
        { hunk_index := hunk_idx, line_index := some k, old_lineno := none,
          new_lineno := l.new_lineno, origin := some DiffLineOrigin.Addition, is_header := false,
          is_collapsed_indicator := false, gap_id := none, hidden_count := 0 }
          :: splitWalk hunk_idx rest
      | DiffLineOrigin.Deletion =>
        let dels := ((FilteredItem.line l k :: rest).takeWhile isDeletionLine).filterMap
          extractLine
        let rest1 := (FilteredItem.line l k :: rest).dropWhile isDeletionLine
        let adds := (rest1.takeWhile isAdditionLine).filterMap extractLine
        let rest2 := rest1.dropWhile isAdditionLine
        pairRows hunk_idx dels adds ++ splitWalk hunk_idx rest2
termination_by items.length
decreasing_by
  · simp
  · have h1 : (List.dropWhile isDeletionLine rest).length ≤ rest.length :=
      (List.dropWhile_sublist isDeletionLine).length_le
    have h2 : ((List.dropWhile isDeletionLine rest).dropWhile isAdditionLine).length
        ≤ (List.dropWhile isDeletionLine rest).length :=
      (List.dropWhile_sublist isAdditionLine).length_le
    have h3 : isDeletionLine (FilteredItem.line l k) = true := by
      simp [isDeletionLine, ho]
    rw [List.dropWhile_cons_of_pos h3]
    simp only [List.length_cons]
    omega

/-- Hunk loop of `build_split_display_map`: header row, then the filtered
items of the hunk, threading the gap-id offset. -/
def splitHunks (display_context : Nat) (gap_expansions : GapExpansions) :
    List Hunk → Nat → Nat → List DisplayRowInfo
  | [], _, _ => []
  | h :: hs, hunk_idx, gap_id_offset =>
    let fr := filterHunkLines h.lines display_context gap_expansions gap_id_offset
    (headerRow hunk_idx :: splitWalk hunk_idx fr.1)
      ++ splitHunks display_context gap_expansions hs (hunk_idx + 1) fr.2

/-- `build_split_display_map` (`display_map.rs` lines 217–393). -/
def buildSplitDisplayMap (delta : FileDelta) (display_context : Nat)
    (gap_expansions : GapExpansions) : List DisplayRowInfo :=
  splitHunks display_context gap_expansions delta.hunks 0 0

/-- The item loop of `build_unified_display_map`: one row per item. -/
def unifiedWalk (hunk_idx : Nat) (items : List FilteredItem) : List DisplayRowInfo :=
  items.map fun it =>
    match it with
    | FilteredItem.collapsedIndicator hidden gid _dir => indicatorRow hunk_idx gid hidden
    | FilteredItem.line l k =>
      { hunk_index := hunk_idx, line_index := some k, old_lineno := l.old_lineno,
        new_lineno := l.new_lineno, origin := some l.origin, is_header := false,
        is_collapsed_indicator := false, gap_id := none, hidden_count := 0 }

/-- Hunk loop of `build_unified_display_map`. -/
def unifiedHunks (display_context : Nat) (gap_expansions : GapExpansions) :
    List Hunk → Nat → Nat → List DisplayRowInfo
  | [], _, _ => []
  | h :: hs, hunk_idx, gap_id_offset =>
    let fr := filterHunkLines h.lines display_context gap_expansions gap_id_offset
    (headerRow hunk_idx :: unifiedWalk hunk_idx fr.1)
      ++ unifiedHunks display_context gap_expansions hs (hunk_idx + 1) fr.2

/-- `build_unified_display_map` (`display_map.rs` lines 396–461). -/
def buildUnifiedDisplayMap (delta : FileDelta) (display_context : Nat)
    (gap_expansions : GapExpansions) : List DisplayRowInfo :=
  unifiedHunks display_context gap_expansions delta.hunks 0 0

/-- `DiffViewMode` (`state/diff_state.rs`). -/
inductive DiffViewMode where
  | Split
  | Unified
deriving DecidableEq, Repr

/-- `build_display_map` (`display_map.rs` lines 464–474). -/
def buildDisplayMap (delta : FileDelta) (mode : DiffViewMode)
    (display_context : Nat) (gap_expansions : GapExpansions) : List DisplayRowInfo :=
  match mode with
  | DiffViewMode.Split => buildSplitDisplayMap delta display_context gap_expansions
  | DiffViewMode.Unified => buildUnifiedDisplayMap delta display_context gap_expansions

/-! ### Line-anchored comment model (`state/annotation_state.rs`)

The `Annotation` record of the source is named `Anno` here; `u32` line
numbers are `Nat`, and the `BTreeMap<String, Vec<Annotation>>` is an
association list whose order models the map's key-sorted iteration order. -/

/-- `LineAnchor`: file path plus optional old-file and new-file inclusive
line ranges. -/
structure LineAnchor where
  file_path : String
  old_range : Option (Nat × Nat)
  new_range : Option (Nat × Nat)
deriving DecidableEq, Repr

/-- `LineAnchor::sort_line`: representative line for sorting/navigation;
prefers new-file start, falls back to old-file start, else 0. -/
def LineAnchor.sort_line (a : LineAnchor) : Nat :=
  ((a.new_range.map Prod.fst).orElse fun _ => a.old_range.map Prod.fst).getD 0

/-- `LineAnchor::covers_old`. -/
def LineAnchor.covers_old (a : LineAnchor) (lineno : Nat) : Bool :=
  match a.old_range with
  | some (s, e) => decide (s ≤ lineno) && decide (lineno ≤ e)
  | none => false

/-- `LineAnchor::covers_new`. -/
def LineAnchor.covers_new (a : LineAnchor) (lineno : Nat) : Bool :=
  match a.new_range with
  | some (s, e) => decide (s ≤ lineno) && decide (lineno ≤ e)
  | none => false

/-- `LineAnchor::covers`: true if either side matches (when present). -/
def LineAnchor.covers (a : LineAnchor) (old_lineno new_lineno : Option Nat) : Bool :=
  (match new_lineno with
   | some n => a.covers_new n
   | none => false)
  || (match old_lineno with
      | some n => a.covers_old n
      | none => false)

/-- One stored user comment (`Annotation` in the source). -/
structure Anno where
  anchor : LineAnchor
  comment : String
  created_at : String
deriving DecidableEq, Repr

/-- `AnnotationState`: all comments of the session, keyed by file path. -/
structure AnnotationState where
  annotations : List (String × List Anno)
deriving DecidableEq, Repr

/-- Sort key used by `all_sorted`: `(file path, representative line)`. -/
def annKey (a : Anno) : String × Nat :=
  (a.anchor.file_path, a.anchor.sort_line)

/-- Boolean `≤` on sort keys — the lexicographic tuple order Rust's
`sort_by_key` uses on `(&String, u32)`. -/
def keyLe (x y : String × Nat) : Bool :=
  decide (x.1 < y.1) || (decide (x.1 = y.1) && decide (x.2 ≤ y.2))

/-- All annotations of the store in flat-map order (the values of the map in
key order). -/
def AnnotationState.allAnnos (s : AnnotationState) : List Anno :=
  s.annotations.flatMap Prod.snd

/-- `AnnotationState::has_annotation_at`. -/
def AnnotationState.has_annotation_at (s : AnnotationState) (file_path : String)
    (old_lineno new_lineno : Option Nat) : Bool :=
  match s.annotations.lookup file_path with
  | some anns => anns.any fun a => a.anchor.covers old_lineno new_lineno
  | none => false

/-- `AnnotationState::all_sorted`: flat, stably sorted by
`(file path, sort_line)`. -/
def AnnotationState.all_sorted (s : AnnotationState) : List Anno :=
  s.allAnnos.mergeSort fun a b => keyLe (annKey a) (annKey b)

/-- The strictly-greater test of the `next_after` scan:
`a.file_path > file_path || (a.file_path == file_path && a.sort_line > lineno)`. -/
def keyGtPos (a : Anno) (file_path : String) (lineno : Nat) : Bool :=
  decide (file_path < a.anchor.file_path)
    || (decide (a.anchor.file_path = file_path) && decide (lineno < a.anchor.sort_line))

/-- `AnnotationState::next_after`: first annotation strictly after the given
position in the sorted order, wrapping around to the first overall. -/
def AnnotationState.next_after (s : AnnotationState) (file_path : String)
    (lineno : Nat) : Option (String × Nat) :=
  let sorted := s.all_sorted
  match sorted.find? (fun a => keyGtPos a file_path lineno) with
  | some a => some (a.anchor.file_path, a.anchor.sort_line)
  | none => sorted.head?.map fun a => (a.anchor.file_path, a.anchor.sort_line)

/-! ### Rendering value types (ratatui `Style`/`Span`/`Line`, reduced)

Colors are opaque tags; a style keeps the fields the diff view manipulates
(`fg`, `bg`, the BOLD modifier).  A span's width is its character count —
the sources call `unicode_width` on content that this model treats as
width-1 characters, which is exact for the width arithmetic verified
here. -/

/-- Terminal color (opaque model of `ratatui::style::Color`). -/
inductive Color where
  | Black
  | Custom (n : Nat)
deriving DecidableEq, Repr

/-- Reduced `ratatui::style::Style`. -/
structure Style where
  fg : Option Color := none
  bg : Option Color := none
  bold : Bool := false
deriving DecidableEq, Repr

/-- `Style::default()`. -/
def Style.base : Style := {}

/-- `style.fg(c)`. -/
def Style.setFg (s : Style) (c : Color) : Style := { s with fg := some c }

/-- `style.bg(c)`. -/
def Style.setBg (s : Style) (c : Color) : Style := { s with bg := some c }

/-- `if let Some(c) = bg { style.bg(c) } else { style }`. -/
def Style.withBg (s : Style) (bg : Option Color) : Style :=
  match bg with
  | some c => s.setBg c
  | none => s

/-- A styled text span (`ratatui::text::Span`). -/
structure Span where
  content : String
  style : Style
deriving DecidableEq, Repr

/-- `span.width()` — character count in this model. -/
def Span.width (s : Span) : Nat := s.content.length

/-- A visual line made of spans (`ratatui::text::Line`). -/
structure Line where
  spans : List Span
deriving DecidableEq, Repr

instance : Inhabited Line := ⟨⟨[]⟩⟩

/-- The theme colors the diff view reads (`theme.rs`, reduced to the fields
used by the embedded functions). -/
structure Theme where
  accent : Color
  text : Color
  text_muted : Color
  cursor_line_fg : Color
  visual_select_bg : Color
  search_match_bg : Color
  diff_add_bg : Color
  diff_del_bg : Color
  diff_add_fg : Color
  diff_del_fg : Color
  diff_context_fg : Color
  diff_hunk_header_fg : Color
  collapsed_bg : Color
deriving DecidableEq, Repr

/-- A syntax-highlight span (`HighlightSpan` in `highlight/engine.rs`);
`stop` is the source's `end` field. -/
structure HighlightSpan where
  start : Nat
  stop : Nat
  style : Style
deriving DecidableEq, Repr

/-- Per-row highlight decision (`RowHighlight` in `diff_view.rs`). -/
structure RowHighlight where
  gutter_bg : Option Color := none
  gutter_fg : Option Color := none
  content_bg : Option Color := none
deriving DecidableEq, Repr

/-- `SelectionState` (`state/selection_state.rs`). -/
structure SelectionState where
  active : Bool
  anchor : Nat
  cursor : Nat
deriving DecidableEq, Repr

/-- `SelectionState::range`: inclusive `(start, end)` display-row range. -/
def SelectionState.range (s : SelectionState) : Nat × Nat :=
  if s.anchor ≤ s.cursor then (s.anchor, s.cursor) else (s.cursor, s.anchor)

/-- The fields of `DiffState` the split/unified line builders read. -/
structure DiffStateModel where
  display_context : Nat
  gap_expansions : GapExpansions
  scroll_offset : Nat
  cursor_row : Nat
  search_query : String
  search_matches : List Nat
deriving DecidableEq, Repr

/-- The fields of `AppState` the split/unified line builders read.
`focus_diff_view` models `state.focus == FocusPanel::DiffView`. -/
structure AppStateModel where
  diff : DiffStateModel
  selection : SelectionState
  focus_diff_view : Bool
  annotations : AnnotationState
  theme : Theme
deriving DecidableEq, Repr

/-- `is_row_selected` (`diff_view.rs`). -/
def is_row_selected (state : AppStateModel) (display_row : Nat) : Bool :=
  if !state.selection.active then false
  else
    let r := state.selection.range
    decide (r.1 ≤ display_row) && decide (display_row ≤ r.2)

/-- `is_cursor_row` (`diff_view.rs`). -/
def is_cursor_row (state : AppStateModel) (display_row : Nat) : Bool :=
  !state.selection.active && state.focus_diff_view
    && decide (display_row = state.diff.cursor_row)

/-- `is_search_match` (`diff_view.rs`); the source's
`binary_search(..).is_ok()` on the sorted match vector is membership. -/
def is_search_match (state : AppStateModel) (display_row : Nat) : Bool :=
  !state.diff.search_query.isEmpty && state.diff.search_matches.contains display_row

/-- `row_highlight` (`diff_view.rs`). -/
def row_highlight (state : AppStateModel) (display_row : Nat) : RowHighlight :=
  let theme := state.theme
  if is_row_selected state display_row then
    { gutter_bg := some theme.visual_select_bg, gutter_fg := none,
      content_bg := some theme.visual_select_bg }
  else if is_cursor_row state display_row then
    { gutter_bg := some theme.accent, gutter_fg := some Color.Black, content_bg := none }
  else if is_search_match state display_row then
    { gutter_bg := none, gutter_fg := none, content_bg := some theme.search_match_bg }
  else
    {}

/-- `has_annotation` in `diff_view.rs` (named `has_anno` here): does any
stored comment cover this row's new or old line number?  The source checks
the new side first, then the old side, through
`AnnotationState::has_annotation_at`. -/
def has_anno (state : AppStateModel) (delta : FileDelta) (row_info : DisplayRowInfo) : Bool :=
  (match row_info.new_lineno with
   | some n => state.annotations.has_annotation_at delta.path none (some n)
   | none => false)
  || (match row_info.old_lineno with
      | some n => state.annotations.has_annotation_at delta.path (some n) none
      | none => false)

/-- `display_map.get(display_row).is_some_and(|info| has_annotation(..))`. -/
def ann_marker_at (state : AppStateModel) (delta : FileDelta)
    (dm : List DisplayRowInfo) (display_row : Nat) : Bool :=
  match dm[display_row]? with
  | some info => has_anno state delta info
  | none => false

/-! ### Line construction helpers (`diff_view.rs` lines 679–1006) -/

/-- `" ".repeat(n)`. -/
def spaces (n : Nat) : String := String.mk (List.replicate n ' ')

/-- Right-align `s` in a field of `width` characters (`format!("{s:>width$}")`). -/
def padLeft (s : String) (width : Nat) : String :=
  spaces (width - s.length) ++ s

/-- `format_lineno`. -/
def format_lineno (lineno : Option Nat) (width : Nat) : String :=
  match lineno with
  | some n => padLeft (toString n) width
  | none => spaces width

/-- `format_gutter_with_marker`. -/
def format_gutter_with_marker (gutter : String) (ann_marker : Bool) : String :=
  if ann_marker then gutter ++ "│" else gutter ++ " "

/-- `content.trim_end_matches('\n')`. -/
def trimEndNewlines (s : String) : String :=
  ((s.toList.reverse.dropWhile fun c => c = '\n').reverse).asString

/-- Character-position slice `text[a..b]` (the source slices by byte index;
highlight spans address the same positions). -/
def sliceStr (s : String) (a b : Nat) : String :=
  ((s.toList.drop a).take (b - a)).asString

/-- Loop body of `apply_highlights`: walk the spans keeping the current
position, emitting default-styled gaps and styled span slices. -/
def applyHighlightsGo (text : String) (bg : Option Color) (theme : Theme) :
    List HighlightSpan → Nat → List Span
  | [], pos =>
    if pos < text.length then
      [⟨sliceStr text pos text.length, (Style.base.setFg theme.diff_context_fg).withBg bg⟩]
    else []
  | sp :: rest, pos =>
    let start := min sp.start text.length
    let stop := min sp.stop text.length
    (if pos < start then
      [(⟨sliceStr text pos start, (Style.base.setFg theme.diff_context_fg).withBg bg⟩ : Span)]
     else [])
    ++ (if start < stop then [(⟨sliceStr text start stop, sp.style.withBg bg⟩ : Span)] else [])
    ++ applyHighlightsGo text bg theme rest stop

/-- `apply_highlights`. -/
def apply_highlights (text : String) (hl_spans : List HighlightSpan)
    (bg : Option Color) (theme : Theme) : List Span :=
  if hl_spans.isEmpty || text.isEmpty then
    [⟨text, (Style.base.setFg theme.text).withBg bg⟩]
  else
    applyHighlightsGo text bg theme hl_spans 0

/-- Apply the `RowHighlight` gutter overrides to a gutter style. -/
def applyGutterHl (s : Style) (hl : RowHighlight) : Style :=
  let s := match hl.gutter_fg with
    | some fg => s.setFg fg
    | none => s
  match hl.gutter_bg with
  | some bg => s.setBg bg
  | none => s

/-- `make_hunk_header_line` (split view). -/
def make_hunk_header_line (gutter_width : Nat) (header : String)
    (hl : RowHighlight) (ann_marker : Bool) (theme : Theme) : Line :=
  let marker := if ann_marker then "│" else " "
  let gutter_text := padLeft "..." gutter_width ++ marker
  let gutter_style := applyGutterHl (Style.base.setFg theme.text_muted) hl
  let content_style := (Style.base.setFg theme.text_muted).withBg hl.content_bg
  ⟨[⟨gutter_text, gutter_style⟩, ⟨header, content_style⟩]⟩

/-- `make_collapsed_indicator_line` (split view). -/
def make_collapsed_indicator_line (gutter_width : Nat) (hidden_count : Nat)
    (direction : ExpandDirection) (hl : RowHighlight) (theme : Theme) : Line :=
  let gutter_text := padLeft "⋯" gutter_width ++ " "
  let gutter_style := applyGutterHl (Style.base.setFg theme.text_muted) hl
  let content_style := (Style.base.setFg theme.text_muted).withBg hl.content_bg
  let caret := match direction with
    | ExpandDirection.Down => "▼"
    | ExpandDirection.Up => "▲"
  let label := caret ++ " " ++ toString hidden_count ++ " lines hidden " ++ caret
  ⟨[⟨gutter_text, gutter_style⟩, ⟨label, content_style⟩]⟩

/-- `make_highlighted_line`. -/
def make_highlighted_line (gutter : String) (content : String)
    (hl_spans : Option (List HighlightSpan)) (diff_bg : Option Color)
    (hl : RowHighlight) (ann_marker : Bool) (theme : Theme) : Line :=
  let trimmed := trimEndNewlines content
  let content_bg := hl.content_bg.orElse fun _ => diff_bg
  let gutter_text := format_gutter_with_marker gutter ann_marker
  let g0 := Style.base.setFg theme.text_muted
  let g1 := if ann_marker then g0.setFg theme.cursor_line_fg else g0
  let gutter_style := applyGutterHl g1 hl
  let content_spans := match hl_spans with
    | some spans => apply_highlights trimmed spans content_bg theme
    | none =>
      let style := match content_bg with
        | some bg_color =>
          let s := Style.base.setBg bg_color
          if hl.content_bg = none then
            if bg_color = theme.diff_del_bg then s.setFg theme.diff_del_fg
            else if bg_color = theme.diff_add_bg then s.setFg theme.diff_add_fg
            else s.setFg theme.text
          else s.setFg theme.text
        | none => Style.base.setFg theme.text
      [(⟨trimmed, style⟩ : Span)]
  ⟨(⟨gutter_text, gutter_style⟩ : Span) :: content_spans⟩

/-- `make_empty_line`. -/
def make_empty_line (gutter_width : Nat) (hl : RowHighlight) (theme : Theme) : Line :=
  let gutter_style :=
    applyGutterHl ((Style.base.setFg theme.text_muted).setBg theme.collapsed_bg) hl
  let content_style :=
    ((Style.base.setFg theme.text_muted).setBg theme.collapsed_bg).withBg hl.content_bg
  ⟨[⟨spaces gutter_width ++ " ", gutter_style⟩, ⟨" ", content_style⟩]⟩

/-! ### `build_split_lines_core` (`diff_view.rs` lines 339–558) -/

/-- Extract the line from a visible filtered item (`Some(*line)`). -/
def extractLineOnly : FilteredItem → Option DiffLine
  | FilteredItem.line l _ => some l
  | _ => none

/-- The `for j in 0..max(dels, adds)` loop of `build_split_lines_core`:
pair deletion `j` (left) with addition `j` (right), padding the exhausted
side with `make_empty_line`; threads the running display row. -/
def splitPairLines (delta : FileDelta) (old_hl new_hl : List (List HighlightSpan))
    (state : AppStateModel) (dm : List DisplayRowInfo) (theme : Theme) :
    List DiffLine → List DiffLine → Nat → List Line × List Line × Nat
  | [], [], display_row => ([], [], display_row)
  | d :: ds, [], display_row =>
    let hl := row_highlight state display_row
    let ann := ann_marker_at state delta dm display_row
    let ll := make_highlighted_line (format_lineno d.old_lineno 5) d.content
      (d.old_lineno.bind fun n => old_hl[n]?) (some theme.diff_del_bg) hl ann theme
    let rl := make_empty_line 5 hl theme
    let tl := splitPairLines delta old_hl new_hl state dm theme ds [] (display_row + 1)
    (ll :: tl.1, rl :: tl.2.1, tl.2.2)
  | [], a :: as_, display_row =>
    let hl := row_highlight state display_row
    let ll := make_empty_line 5 hl theme
    let rl := make_highlighted_line (format_lineno a.new_lineno 5) a.content
      (a.new_lineno.bind fun n => new_hl[n]?) (some theme.diff_add_bg) hl false theme
    let tl := splitPairLines delta old_hl new_hl state dm theme [] as_ (display_row + 1)
    (ll :: tl.1, rl :: tl.2.1, tl.2.2)
  | d :: ds, a :: as_, display_row =>
    let hl := row_highlight state display_row
    let ann := ann_marker_at state delta dm display_row
    let ll := make_highlighted_line (format_lineno d.old_lineno 5) d.content
      (d.old_lineno.bind fun n => old_hl[n]?) (some theme.diff_del_bg) hl ann theme
    let rl := make_highlighted_line (format_lineno a.new_lineno 5) a.content
      (a.new_lineno.bind fun n => new_hl[n]?) (some theme.diff_add_bg) hl false theme
    let tl := splitPairLines delta old_hl new_hl state dm theme ds as_ (display_row + 1)
    (ll :: tl.1, rl :: tl.2.1, tl.2.2)

/-- The item loop of `build_split_lines_core`, threading the display row;
returns the left lines, right lines and the display row after the items. -/
def splitCoreItems (delta : FileDelta) (old_hl new_hl : List (List HighlightSpan))
    (state : AppStateModel) (dm : List DisplayRowInfo) (theme : Theme)
    (items : List FilteredItem) (display_row : Nat) : List Line × List Line × Nat :=
  match items with
  | [] => ([], [], display_row)
  | it :: rest =>
    match it with
    | FilteredItem.collapsedIndicator hidden _gid direction =>
      let hl := row_highlight state display_row
      let ln := make_collapsed_indicator_line 5 hidden direction hl theme
      let tl := splitCoreItems delta old_hl new_hl state dm theme rest (display_row + 1)
      (ln :: tl.1, ln :: tl.2.1, tl.2.2)
    | FilteredItem.line l _k =>
      match ho : l.origin with
      | DiffLineOrigin.Context =>
        let hl := row_highlight state display_row
        let ann := ann_marker_at state delta dm display_row
        let ll := make_highlighted_line (format_lineno l.old_lineno 5) l.content
          (l.old_lineno.bind fun n => old_hl[n]?) none hl ann theme
        let rl := make_highlighted_line (format_lineno l.new_lineno 5) l.content
          (l.new_lineno.bind fun n => new_hl[n]?) none hl false theme
        let tl := splitCoreItems delta old_hl new_hl state dm theme rest (display_row + 1)
        (ll :: tl.1, rl :: tl.2.1, tl.2.2)
      | DiffLineOrigin.Addition =>
        let hl := row_highlight state display_row
        let ann := ann_marker_at state delta dm display_row
        let ll := make_empty_line 5 hl theme
        let rl := make_highlighted_line (format_lineno l.new_lineno 5) l.content
          (l.new_lineno.bind fun n => new_hl[n]?) (some theme.diff_add_bg) hl ann theme
        let tl := splitCoreItems delta old_hl new_hl state dm theme rest (display_row + 1)
        (ll :: tl.1, rl :: tl.2.1, tl.2.2)
      | DiffLineOrigin.Deletion =>
        let dels := ((FilteredItem.line l _k :: rest).takeWhile isDeletionLine).filterMap
          extractLineOnly
        let rest1 := (FilteredItem.line l _k :: rest).dropWhile isDeletionLine
        let adds := (rest1.takeWhile isAdditionLine).filterMap extractLineOnly
        let rest2 := rest1.dropWhile isAdditionLine
        let pr := splitPairLines delta old_hl new_hl state dm theme dels adds display_row
        let tl := splitCoreItems delta old_hl new_hl state dm theme rest2 pr.2.2
        (pr.1 ++ tl.1, pr.2.1 ++ tl.2.1, tl.2.2)
termination_by items.length
decreasing_by
  · simp
  · have h1 : (List.dropWhile isDeletionLine rest).length ≤ rest.length :=
      (List.dropWhile_sublist isDeletionLine).length_le
    have h2 : ((List.dropWhile isDeletionLine rest).dropWhile isAdditionLine).length
        ≤ (List.dropWhile isDeletionLine rest).length :=
      (List.dropWhile_sublist isAdditionLine).length_le
    have h3 : isDeletionLine (FilteredItem.line l _k) = true := by
      simp [isDeletionLine, ho]
    rw [List.dropWhile_cons_of_pos h3]
    simp only [List.length_cons]
    omega

/-- The hunk loop of `build_split_lines_core`, threading the display row and
the gap-id offset. -/
def splitCoreGo (delta : FileDelta) (old_hl new_hl : List (List HighlightSpan))
    (state : AppStateModel) (dm : List DisplayRowInfo) (theme : Theme) :
    List Hunk → Nat → Nat → List Line × List Line
  | [], _, _ => ([], [])
  | hunk :: hs, display_row, gap_id_offset =>
    let hl := row_highlight state display_row
    let ann := ann_marker_at state delta dm display_row
    let lh := make_hunk_header_line 5 hunk.header hl ann theme
    let rh := make_hunk_header_line 5 hunk.header hl false theme
    let fr := filterHunkLines hunk.lines state.diff.display_context
      state.diff.gap_expansions gap_id_offset
    let ci := splitCoreItems delta old_hl new_hl state dm theme fr.1 (display_row + 1)
    let tl := splitCoreGo delta old_hl new_hl state dm theme hs ci.2.2 fr.2
    (lh :: ci.1 ++ tl.1, rh :: ci.2.1 ++ tl.2)

/-- `build_split_lines_core`: the left and right logical line sequences for
the split view. -/
def build_split_lines_core (delta : FileDelta)
    (old_hl new_hl : List (List HighlightSpan)) (state : AppStateModel)
    (dm : List DisplayRowInfo) (theme : Theme) : List Line × List Line :=
  splitCoreGo delta old_hl new_hl state dm theme delta.hunks 0 0

/-! ### Synchronized wrapping (`diff_view.rs` lines 1008–1219) -/

/-- Inner coalescing loop of `wrap_single_line_for_display`: rebuild spans
from a chunk of `(char, style)` pairs, merging adjacent equal styles. -/
def coalesceGo : List (Char × Style) → String → Style → List Span
  | [], text, style => if text.isEmpty then [] else [⟨text, style⟩]
  | (ch, st) :: rest, text, style =>
    if st = style then coalesceGo rest (text.push ch) style
    else
      (if text.isEmpty then [] else [(⟨text, style⟩ : Span)])
        ++ coalesceGo rest (String.mk [ch]) st

/-- Span coalescing for one wrapped chunk (`current_style` starts as the
style of the chunk's first character). -/
def coalesce (chunk : List (Char × Style)) : List Span :=
  match chunk with
  | [] => []
  | (_, s) :: _ => coalesceGo chunk "" s

/-- The `while offset < chars.len()` chunking loop of
`wrap_single_line_for_display`; the caller guarantees
`0 < content_width` (it returned early when the width was zero). -/
def wrapChunksGo (content_width : Nat) (hcw : 0 < content_width)
    (gutter_span : Span) (cont_gutter : String) (cont_style : Style) :
    List (Char × Style) → Bool → List Line
  | [], _ => []
  | c :: cs, is_first =>
    let chunk := (c :: cs).take content_width
    let restc := (c :: cs).drop content_width
    let head_span := if is_first then gutter_span else (⟨cont_gutter, cont_style⟩ : Span)
    Line.mk (head_span :: coalesce chunk)
      :: wrapChunksGo content_width hcw gutter_span cont_gutter cont_style restc false
termination_by chars _ => chars.length
decreasing_by
  simp only [List.length_drop, List.length_cons]
  omega

/-- `wrap_single_line_for_display`. -/
def wrap_single_line_for_display (line : Line) (width : Nat) (gutter_width : Nat)
    (wrap_enabled : Bool) (theme : Theme) : List Line :=
  if !wrap_enabled || width == 0 then [line]
  else
    let max_width := width
    let content_width := max_width - gutter_width
    if hcw : content_width = 0 then [line]
    else
      let line_width := (line.spans.map Span.width).sum
      if line_width ≤ max_width then [line]
      else
        match line.spans with
        | [] => [default]
        | gutter_span :: content_spans =>
          let chars := content_spans.flatMap fun sp =>
            sp.content.toList.map fun ch => (ch, sp.style)
          let cont_gutter := spaces (gutter_width - 1) ++ "↪"
          let cont_gutter_style := gutter_span.style.setFg theme.text_muted
          let result := wrapChunksGo content_width (Nat.pos_of_ne_zero hcw)
            gutter_span cont_gutter cont_gutter_style chars true
          if chars.isEmpty then [Line.mk [gutter_span]] else result

/-- Inner `for i in start..max_height` loop of
`wrap_split_lines_synchronized_with_scroll`: emit row `i` from both wrapped
sides (blank `Line::default()` when one side has fewer chunks), stopping
when the remaining height runs out; returns both emitted lists and the
remaining height. -/
def emitRows (lw rw : List Line) (i mh height : Nat) : List Line × List Line × Nat :=
  if _hi : i < mh then
    if height = 0 then ([], [], 0)
    else
      let tl := emitRows lw rw (i + 1) mh (height - 1)
      ((lw[i]?).getD default :: tl.1, (rw[i]?).getD default :: tl.2.1, tl.2.2)
  else ([], [], height)
termination_by mh - i

/-- Main loop of `wrap_split_lines_synchronized_with_scroll` over the zipped
logical rows, consuming the visual skip then emitting up to `height` visual
rows. -/
def wrapSyncGo (width gutter_width : Nat) (wrap_enabled : Bool) (theme : Theme) :
    List (Line × Line) → Nat → Nat → List Line × List Line
  | [], _, _ => ([], [])
  | (l, r) :: rest, remaining_skip, remaining_height =>
    let lw := wrap_single_line_for_display l width gutter_width wrap_enabled theme
    let rw := wrap_single_line_for_display r width gutter_width wrap_enabled theme
    let mh := max lw.length rw.length
    if remaining_skip ≥ mh then
      wrapSyncGo width gutter_width wrap_enabled theme rest (remaining_skip - mh)
        remaining_height
    else
      let er := emitRows lw rw remaining_skip mh remaining_height
      if er.2.2 = 0 then (er.1, er.2.1)
      else
        let tl := wrapSyncGo width gutter_width wrap_enabled theme rest 0 er.2.2
        (er.1 ++ tl.1, er.2.1 ++ tl.2)

/-- `wrap_split_lines_synchronized_with_scroll`. -/
def wrap_split_lines_synchronized_with_scroll (left_lines right_lines : List Line)
    (width gutter_width : Nat) (wrap_enabled : Bool) (start_visual height : Nat)
    (theme : Theme) : List Line × List Line :=
  if height = 0 then ([], [])
  else if !wrap_enabled || width == 0 then
    ((left_lines.drop start_visual).take height,
     (right_lines.drop start_visual).take height)
  else
    wrapSyncGo width gutter_width wrap_enabled theme (left_lines.zip right_lines)
      start_visual height

/-- Pad a wrapped side with blank visual rows (`Line::default()`) up to the
logical row's height. -/
def padTo (l : List Line) (n : Nat) : List Line :=
  l ++ List.replicate (n - l.length) default

/-- Visual height of one logical row in synchronized mode:
`max(left wrapped chunks, right wrapped chunks)`. -/
def pairMaxHeight (width gutter_width : Nat) (wrap_enabled : Bool) (theme : Theme)
    (p : Line × Line) : Nat :=
  max (wrap_single_line_for_display p.1 width gutter_width wrap_enabled theme).length
      (wrap_single_line_for_display p.2 width gutter_width wrap_enabled theme).length

/-- Total visual height of a list of logical row pairs. -/
def syncHeightSum (width gutter_width : Nat) (wrap_enabled : Bool) (theme : Theme)
    (pairs : List (Line × Line)) : Nat :=
  (pairs.map (pairMaxHeight width gutter_width wrap_enabled theme)).sum

/-! ### Specification-side vocabulary

These definitions follow the specification's wording; the theorems compare
the source-derived functions above against them. -/

/-- The line number lies inside the anchor's old-range (which must be
present). -/
def inOldRange (a : LineAnchor) (n : Nat) : Prop :=
  ∃ s e, a.old_range = some (s, e) ∧ s ≤ n ∧ n ≤ e

/-- The line number lies inside the anchor's new-range (which must be
present). -/
def inNewRange (a : LineAnchor) (n : Nat) : Prop :=
  ∃ s e, a.new_range = some (s, e) ∧ s ≤ n ∧ n ≤ e

/-- Strict lexicographic order on `(file path, representative line)` keys. -/
def lexLt (x y : String × Nat) : Prop :=
  x.1 < y.1 ∨ (x.1 = y.1 ∧ x.2 < y.2)

/-- Non-strict lexicographic order on `(file path, representative line)`
keys. -/
def lexLe (x y : String × Nat) : Prop :=
  x.1 < y.1 ∨ (x.1 = y.1 ∧ x.2 ≤ y.2)

/-- Specification of `next_after` at one query position: if some annotation
is strictly after the position in the `(file path, representative line)`
order, the result is such an annotation's key and is minimal among them;
otherwise the result is the key of a minimal annotation of the whole
ordering (the wraparound). -/
def nextAfterSpec (s : AnnotationState) (file_path : String) (lineno : Nat) : Prop :=
  ((∃ a ∈ s.allAnnos, lexLt (file_path, lineno) (annKey a)) →
    ∃ a ∈ s.allAnnos, s.next_after file_path lineno = some (annKey a)
      ∧ lexLt (file_path, lineno) (annKey a)
      ∧ ∀ b ∈ s.allAnnos, lexLt (file_path, lineno) (annKey b) →
          lexLe (annKey a) (annKey b))
  ∧ ((∀ a ∈ s.allAnnos, ¬ lexLt (file_path, lineno) (annKey a)) →
    ∃ a ∈ s.allAnnos, s.next_after file_path lineno = some (annKey a)
      ∧ ∀ b ∈ s.allAnnos, lexLe (annKey a) (annKey b))

/-! ### Concrete example inputs (used by the witness theorems) -/

/-- A context line with the given old/new line numbers. -/
def mkContext (o n : Nat) : DiffLine :=
  ⟨DiffLineOrigin.Context, some o, some n, "ctx"⟩

/-- An addition line with the given new line number. -/
def mkAddition (n : Nat) : DiffLine :=
  ⟨DiffLineOrigin.Addition, none, some n, "add"⟩

/-- A deletion line with the given old line number. -/
def mkDeletion (o : Nat) : DiffLine :=
  ⟨DiffLineOrigin.Deletion, some o, none, "del"⟩

/-- Example hunk: a change block (3 deletions, 1 addition) between context
runs. -/
def exHunk : Hunk :=
  { header := "@@ -1,8 +1,6 @@", old_start := 1, old_lines := 8,
    new_start := 1, new_lines := 6,
    lines := [mkContext 1 1, mkDeletion 2, mkDeletion 3, mkDeletion 4,
              mkAddition 2, mkContext 5 3, mkContext 6 4] }

/-- Example delta with one hunk. -/
def exDelta : FileDelta :=
  { path := "src/main.rs", old_path := none, status := FileStatus.Modified,
    hunks := [exHunk], additions := 1, deletions := 3, binary := false }

/-- Example delta with no hunks at all. -/
def exNoHunksDelta : FileDelta :=
  { path := "unchanged.rs", old_path := none, status := FileStatus.Modified,
    hunks := [], additions := 0, deletions := 0, binary := false }

/-- Example delta whose one hunk has an empty line list. -/
def exEmptyHunkDelta : FileDelta :=
  { path := "src/lib.rs", old_path := none, status := FileStatus.Modified,
    hunks := [{ header := "@@", old_start := 0, old_lines := 0,
                new_start := 0, new_lines := 0, lines := [] }],
    additions := 0, deletions := 0, binary := false }

/-- Example theme with distinct colors. -/
def exTheme : Theme :=
  { accent := Color.Custom 1, text := Color.Custom 2, text_muted := Color.Custom 3,
    cursor_line_fg := Color.Custom 4, visual_select_bg := Color.Custom 5,
    search_match_bg := Color.Custom 6, diff_add_bg := Color.Custom 7,
    diff_del_bg := Color.Custom 8, diff_add_fg := Color.Custom 9,
    diff_del_fg := Color.Custom 10, diff_context_fg := Color.Custom 11,
    diff_hunk_header_fg := Color.Custom 12, collapsed_bg := Color.Custom 13 }

/-- Example UI state: nothing selected, cursor on row 0. -/
def exState : AppStateModel :=
  { diff := { display_context := 3, gap_expansions := [], scroll_offset := 0,
              cursor_row := 0, search_query := "", search_matches := [] },
    selection := { active := false, anchor := 0, cursor := 0 },
    focus_diff_view := true,
    annotations := ⟨[]⟩,
    theme := exTheme }

/-- Three deletion items (with hunk line indices) for the pairing example. -/
def exDels3 : List (DiffLine × Nat) :=
  [(mkDeletion 10, 1), (mkDeletion 11, 2), (mkDeletion 12, 3)]

/-- One addition item for the pairing example. -/
def exAdds1 : List (DiffLine × Nat) :=
  [(mkAddition 20, 4)]

/-- A 203-character content string for the wrap-math example. -/
def ex203 : String := String.mk (List.replicate 203 'a')

/-- A hunk line list with a two-sided interior context run of four lines,
used to exhibit the `usize`-overflow panic of the gap filter. -/
def exGapLines : List DiffLine :=
  [mkDeletion 1, mkContext 2 1, mkContext 3 2, mkContext 4 3, mkContext 5 4,
   mkAddition 6]

/-- An example annotation store with two files and three comments. -/
def exAnnState : AnnotationState :=
  ⟨[("a.rs", [⟨⟨"a.rs", none, some (2, 4)⟩, "first", "t1"⟩,
              ⟨⟨"a.rs", some (10, 12), none⟩, "second", "t2"⟩]),
    ("b.rs", [⟨⟨"b.rs", none, some (7, 7)⟩, "third", "t3"⟩])]⟩

/-! ## Theorems -/

/-! ### Gap filter: basic emission lemmas -/

theorem length_runLines (run : List DiffLine) (start : Nat) :
    (runLines run start).length = run.length := by
  simp [runLines]

theorem visibleCount_runLines (run : List DiffLine) (start : Nat) :
    visibleCount (runLines run start) = run.length := by
  have h : (runLines run start).filter (fun it => match it with
      | FilteredItem.line _ _ => true
      | _ => false) = runLines run start := by
    apply List.filter_eq_self.mpr
    intro it hit
    simp only [runLines, List.mem_map] at hit
    obtain ⟨p, -, rfl⟩ := hit
    rfl
  simp [visibleCount, h, length_runLines]

theorem hiddenCounts_runLines (run : List DiffLine) (start : Nat) :
    hiddenCounts (runLines run start) = [] := by
  simp only [hiddenCounts, runLines, List.filterMap_map]
  apply List.filterMap_eq_nil.mpr
  intro p _
  rfl

theorem visibleCount_append (a b : List FilteredItem) :
    visibleCount (a ++ b) = visibleCount a + visibleCount b := by
  simp [visibleCount, List.filter_append]

theorem hiddenCounts_append (a b : List FilteredItem) :
    hiddenCounts (a ++ b) = hiddenCounts a ++ hiddenCounts b := by
  simp [hiddenCounts, List.filterMap_append]

theorem visibleCount_nil : visibleCount [] = 0 := rfl

theorem hiddenCounts_nil : hiddenCounts [] = [] := rfl

theorem visibleCount_cons_ind (h g : Nat) (d : ExpandDirection) (rest : List FilteredItem) :
    visibleCount (FilteredItem.collapsedIndicator h g d :: rest) = visibleCount rest := by
  simp [visibleCount]

theorem hiddenCounts_cons_ind (h g : Nat) (d : ExpandDirection) (rest : List FilteredItem) :
    hiddenCounts (FilteredItem.collapsedIndicator h g d :: rest) = h :: hiddenCounts rest := by
  simp [hiddenCounts]

/-- C1 — Gap-filter conservation: for a maximal run of consecutive `Context`
lines handled by `filter_hunk_lines`' per-run body, if no collapsed
indicator is emitted then every line of the run is emitted; and every
emitted indicator's `hidden_count` plus the number of lines emitted as
visible equals the run's total length. -/
theorem gap_filter_conservation (run : List DiffLine) (run_start : Nat)
    (hb ha : Bool) (display_context : Nat) (exp : GapExpansions) (g : Nat)
    (hrun : ∀ l ∈ run, l.origin = DiffLineOrigin.Context) :
    (hiddenCounts (processRun run run_start hb ha display_context exp g).1 = [] →
      (processRun run run_start hb ha display_context exp g).1 = runLines run run_start)
    ∧ ∀ hc ∈ hiddenCounts (processRun run run_start hb ha display_context exp g).1,
        visibleCount (processRun run run_start hb ha display_context exp g).1 + hc
          = run.length := by
  clear hrun
  simp only [processRun]
  split_ifs <;>
    refine ⟨fun hemp => ?_, fun hc hmem => ?_⟩ <;>
    simp_all only [hiddenCounts_append, hiddenCounts_runLines, hiddenCounts_cons_ind,
      hiddenCounts_nil, visibleCount_append, visibleCount_runLines, visibleCount_cons_ind,
      visibleCount_nil, List.cons_append, List.nil_append, List.append_nil,
      List.mem_cons, List.not_mem_nil, List.mem_singleton, length_runLines,
      List.length_take, List.length_drop, List.singleton_append, or_false, false_or,
      reduceCtorEq, not_false_eq_true, ge_iff_le, not_le] <;>
    first
      | rfl
      | (rcases hmem with rfl | rfl | hmem <;> omega)
      | (rcases hmem with rfl | hmem <;> omega)
      | omega

/-- Witness for C1 at a concrete two-sided run of 3 context lines with
window 1: one gap is created and conservation holds. -/
theorem gap_filter_conservation_witness :
    (∀ l ∈ [mkContext 1 1, mkContext 2 2, mkContext 3 3],
        l.origin = DiffLineOrigin.Context)
    ∧ ((hiddenCounts
          (processRun [mkContext 1 1, mkContext 2 2, mkContext 3 3]
            0 true true 1 [] 0).1 = [] →
        (processRun [mkContext 1 1, mkContext 2 2, mkContext 3 3]
            0 true true 1 [] 0).1
          = runLines [mkContext 1 1, mkContext 2 2, mkContext 3 3] 0)
       ∧ ∀ hc ∈ hiddenCounts
            (processRun [mkContext 1 1, mkContext 2 2, mkContext 3 3]
              0 true true 1 [] 0).1,
          visibleCount
            (processRun [mkContext 1 1, mkContext 2 2, mkContext 3 3]
              0 true true 1 [] 0).1 + hc
            = [mkContext 1 1, mkContext 2 2, mkContext 3 3].length) :=
  ⟨by decide,
   gap_filter_conservation [mkContext 1 1, mkContext 2 2, mkContext 3 3]
     0 true true 1 [] 0 (by decide)⟩

/-! ### Gap-id counter accounting -/

theorem countContextRun_le_length (l : List DiffLine) :
    countContextRun l ≤ l.length := by
  induction l with
  | nil => simp [countContextRun]
  | cons x xs ih =>
    simp only [countContextRun, List.length_cons]
    split_ifs <;> omega

theorem processRun_counter (run : List DiffLine) (run_start : Nat) (hb ha : Bool)
    (ctx : Nat) (exp : GapExpansions) (g : Nat) :
    (processRun run run_start hb ha ctx exp g).2
      = g + runWeight ctx (hb, ha, run.length) := by
  simp only [processRun, runWeight]
  split_ifs <;> simp

theorem filterAux_counter (ctx : Nat) (exp : GapExpansions)
    (rem : List DiffLine) (pos g : Nat) :
    (filterAux ctx exp rem pos g).2
      = g + ((contextRunsAux rem pos).map (runWeight ctx)).sum := by
  induction rem, pos, g using filterAux.induct ctx exp with
  | case1 pos g => simp [filterAux, contextRunsAux]
  | case2 pos g l rest hc run after pr ih =>
    have hlen : ((l :: rest).take (countContextRun (l :: rest))).length
        = countContextRun (l :: rest) := by
      rw [List.length_take]
      have := countContextRun_le_length (l :: rest)
      omega
    unfold_let run after pr at ih
    simp only [filterAux, dif_pos hc]
    rw [ih]
    rw [processRun_counter]
    conv_rhs => rw [contextRunsAux, dif_pos hc]
    simp only [List.map_cons, List.sum_cons, hlen]
    omega
  | case3 pos g l rest hc ih =>
    simp only [filterAux, dif_neg hc]
    rw [ih]
    conv_rhs => rw [contextRunsAux, dif_neg hc]

/-! ### Gap filter: overflow counterexample and bounded totality -/

theorem GapExpansions.get_lt (m : GapExpansions) (k B : Nat) (hB : 0 < B)
    (hm : ∀ p ∈ m, p.2 < B) : GapExpansions.get m k < B := by
  induction m with
  | nil => simpa [GapExpansions.get, List.lookup] using hB
  | cons p t ih =>
    obtain ⟨a, b⟩ := p
    by_cases hk : (k == a) = true
    · have hg : GapExpansions.get ((a, b) :: t) k = b := by
        simp [GapExpansions.get, List.lookup, hk]
      rw [hg]
      exact hm (a, b) (List.mem_cons_self _ _)
    · have hg : GapExpansions.get ((a, b) :: t) k = GapExpansions.get t k := by
        simp [GapExpansions.get, List.lookup, hk]
      rw [hg]
      exact ih fun q hq => hm q (List.mem_cons_of_mem _ hq)

theorem wrap64_eq_self (n : Nat) (h : n < 2 ^ 64) : wrap64 n = n := by
  unfold wrap64 usizeSize
  exact Nat.mod_eq_of_lt h

theorem wrapSub64_eq_sub (a b : Nat) (h1 : b ≤ a) (h2 : a < 2 ^ 64) :
    wrapSub64 a b = a - b := by
  unfold wrapSub64 usizeSize
  omega

theorem slice?_eq_some (l : List DiffLine) (s e : Nat) (h1 : s ≤ e)
    (h2 : e ≤ l.length) :
    slice? l s e = some ((l.drop s).take (e - s)) := by
  simp [slice?, h1, h2]

theorem runWeight_le_two (ctx : Nat) (r : Bool × Bool × Nat) :
    runWeight ctx r ≤ 2 := by
  rcases r with ⟨hb, ha, t⟩
  simp only [runWeight]
  split_ifs <;> omega

theorem runLines_slice_top (lines : List DiffLine) (rs e st : Nat)
    (h : st ≤ e - rs) :
    ((lines.drop rs).take (e - rs)).take st = (lines.drop rs).take st := by
  rw [List.take_take]
  congr 1
  omega

theorem runLines_slice_bot (lines : List DiffLine) (rs e sb : Nat)
    (h1 : rs ≤ e) (h2 : sb ≤ e - rs) :
    ((lines.drop rs).take (e - rs)).drop ((e - rs) - sb)
      = (lines.drop (e - sb)).take (e - (e - sb)) := by
  rw [List.drop_take, List.drop_drop]
  have q1 : rs + ((e - rs) - sb) = e - sb := by omega
  have q2 : (e - rs) - ((e - rs) - sb) = sb := by omega
  have q3 : e - (e - sb) = sb := by omega
  rw [q1, q2, q3]

theorem bot_start_eq (rs e sb : Nat) (h1 : rs ≤ e) (h2 : sb ≤ e - rs) :
    rs + ((e - rs) - sb) = e - sb := by
  omega

set_option maxHeartbeats 800000 in
theorem processRunWrap_eq (lines : List DiffLine) (rs e : Nat) (hb ha : Bool)
    (display_context : Nat) (exp : GapExpansions) (g : Nat)
    (hre : rs ≤ e) (hel : e ≤ lines.length)
    (hctx : display_context < 2 ^ 62) (hexp : ∀ p ∈ exp, p.2 < 2 ^ 62)
    (hlen : lines.length < 2 ^ 62) (hg : g + 2 < usizeSize) :
    processRunWrap lines rs e hb ha display_context exp g
      = some (processRun ((lines.drop rs).take (e - rs)) rs hb ha
          display_context exp g) := by
  have hgu : g + 2 < 2 ^ 64 := by
    have hu : usizeSize = 2 ^ 64 := rfl
    omega
  have hB : (0 : Nat) < 2 ^ 62 := by norm_num
  have he1 : GapExpansions.get exp g < 2 ^ 62 :=
    GapExpansions.get_lt exp g _ hB hexp
  have he2 : GapExpansions.get exp (g + 1) < 2 ^ 62 :=
    GapExpansions.get_lt exp (g + 1) _ hB hexp
  have hrunlen : ((lines.drop rs).take (e - rs)).length = e - rs := by
    simp only [List.length_take, List.length_drop]
    omega
  cases hb <;> cases ha <;>
    (simp only [processRunWrap, processRun, hrunlen, Bool.not_true, Bool.not_false,
       Bool.and_self, Bool.and_true, Bool.true_and, Bool.and_false, Bool.false_and,
       Bool.false_eq_true, if_true, if_false]
     simp (disch := omega) only [wrap64_eq_self]
     split_ifs <;>
       first
         | rfl
         | (try dsimp only
            simp (disch := omega) only [wrapSub64_eq_sub, slice?_eq_some,
              Option.bind_eq_bind, Option.some_bind, runLines_slice_top,
              runLines_slice_bot, bot_start_eq, Nat.add_sub_cancel_left]))

theorem filterAuxWrap_eq (display_context : Nat) (exp : GapExpansions)
    (lines : List DiffLine)
    (hctx : display_context < 2 ^ 62) (hexp : ∀ p ∈ exp, p.2 < 2 ^ 62)
    (hlen : lines.length < 2 ^ 62) :
    ∀ i g, g + 2 * (lines.length - i) < usizeSize →
      filterAuxWrap display_context exp lines i g
        = some (filterAux display_context exp (lines.drop i) i g) := by
  intro i g
  induction i, g using filterAuxWrap.induct display_context exp lines with
  | case1 i g h hc ih =>
    intro hinv
    have hd : lines.drop i = lines[i] :: lines.drop (i + 1) :=
      List.drop_eq_getElem_cons h
    have hn1 : 0 < countContextRun (lines.drop i) := by
      rw [hd]
      simp [countContextRun, hc]
    have hnle : countContextRun (lines.drop i) ≤ lines.length - i := by
      have hle := countContextRun_le_length (lines.drop i)
      simpa [List.length_drop] using hle
    have hcnt := processRun_counter ((lines.drop i).take (countContextRun (lines.drop i)))
      i (i != 0) (decide (i + countContextRun (lines.drop i) < lines.length))
      display_context exp g
    have hwle := runWeight_le_two display_context
      (i != 0, decide (i + countContextRun (lines.drop i) < lines.length),
        ((lines.drop i).take (countContextRun (lines.drop i))).length)
    rw [filterAuxWrap, dif_pos h, dif_pos hc]
    rw [processRunWrap_eq lines i (i + countContextRun (lines.drop i)) (i != 0)
      (decide (i + countContextRun (lines.drop i) < lines.length))
      display_context exp g (by omega) (by omega) hctx hexp hlen (by omega)]
    simp only [Nat.add_sub_cancel_left, Option.bind_eq_bind, Option.some_bind]
    rw [ih (processRun ((lines.drop i).take (countContextRun (lines.drop i))) i
        (i != 0) (decide (i + countContextRun (lines.drop i) < lines.length))
        display_context exp g) (by rw [hcnt]; omega)]
    simp only [Option.some_bind]
    have hafter : (!(lines.drop (i + countContextRun (lines.drop i))).isEmpty)
        = decide (i + countContextRun (lines.drop i) < lines.length) := by
      by_cases hq : i + countContextRun (lines.drop i) < lines.length <;>
        simp [hq, List.isEmpty_iff, List.drop_eq_nil_iff_le] <;>
        omega
    conv_rhs => rw [hd, filterAux]
    rw [dif_pos hc]
    simp only [← hd, List.drop_drop, Nat.add_comm _ i, hafter]
  | case2 i g h hc ih =>
    intro hinv
    have hd : lines.drop i = lines[i] :: lines.drop (i + 1) :=
      List.drop_eq_getElem_cons h
    rw [filterAuxWrap, dif_pos h, dif_neg hc]
    rw [ih (by omega)]
    conv_rhs => rw [hd, filterAux]
    rw [dif_neg hc]
    rfl
  | case3 i g h =>
    intro hinv
    have hd : lines.drop i = [] := List.drop_eq_nil_of_le (by omega)
    rw [filterAuxWrap, dif_neg h, hd]
    simp [filterAux]

/-- C10 (counterexample) — with `display_context = 1` and expansions of
`2^63` recorded for both gap ids of a two-sided run of 4 context lines, the
release-mode `usize` sums wrap: `total_show` becomes 2, the partial path is
taken, and the slice `lines[run_start..run_start + show_top]` is out of
range, so `filter_hunk_lines` panics — refuting the claim that it never
panics for arbitrarily large expansion values (debug builds panic even
earlier, at the overflowing addition). -/
theorem filter_hunk_lines_overflow_panics :
    filterHunkLinesWrap exGapLines 1 [(0, 2 ^ 63), (1, 2 ^ 63)] 0 = none := by
  simp [filterHunkLinesWrap, filterAuxWrap, processRunWrap, exGapLines,
    mkDeletion, mkContext, mkAddition, countContextRun, GapExpansions.get,
    List.lookup, wrap64, wrapSub64, usizeSize, slice?]

/-- C10 (amended) — Gap-filter totality away from `usize` overflow: for
every line list of fewer than `2^62` lines, every context window and gap-id
offset below `2^62`, and every gap-expansion map whose values are all below
`2^62` — bounds under which no `usize` sum in `filter_hunk_lines` can reach
`2^64` — the release-semantics model (wrapping arithmetic, checked slice
bounds) succeeds and agrees with the unbounded-`Nat` model, so within these
bounds `filter_hunk_lines` terminates, all slice bounds are in range, and it
never panics. -/
theorem filter_hunk_lines_no_panic_bounded (lines : List DiffLine)
    (display_context : Nat) (gap_expansions : GapExpansions) (gap_id_offset : Nat)
    (hctx : display_context < 2 ^ 62)
    (hexp : ∀ p ∈ gap_expansions, p.2 < 2 ^ 62)
    (hlen : lines.length < 2 ^ 62)
    (hoff : gap_id_offset < 2 ^ 62) :
    filterHunkLinesWrap lines display_context gap_expansions gap_id_offset
      = some (filterHunkLines lines display_context gap_expansions gap_id_offset) := by
  have hinv : gap_id_offset + 2 * (lines.length - 0) < usizeSize := by
    have hu : usizeSize = 2 ^ 64 := rfl
    omega
  have hmain := filterAuxWrap_eq display_context gap_expansions lines hctx hexp hlen
    0 gap_id_offset hinv
  simpa [filterHunkLinesWrap, filterHunkLines] using hmain

/-- Witness for C10's amended claim at a concrete small-valued input. -/
theorem filter_hunk_lines_no_panic_bounded_witness :
    ((1 : Nat) < 2 ^ 62 ∧ (∀ p ∈ ([(0, 2)] : GapExpansions), p.2 < 2 ^ 62)
      ∧ exGapLines.length < 2 ^ 62 ∧ (0 : Nat) < 2 ^ 62)
    ∧ filterHunkLinesWrap exGapLines 1 [(0, 2)] 0
        = some (filterHunkLines exGapLines 1 [(0, 2)] 0) :=
  ⟨⟨by decide, by decide, by decide, by decide⟩,
   filter_hunk_lines_no_panic_bounded exGapLines 1 [(0, 2)] 0
     (by decide) (by decide) (by decide) (by decide)⟩

/-- C7 — Gap-id counter advance: the counter returned by
`filter_hunk_lines` is the given offset plus, per maximal context run, 0 if
the baseline context window already covers the run, else 2 for a two-sided
run and 1 otherwise — independently of the gap-expansion map, so in
particular independently of whether an indicator was actually emitted. -/
theorem gap_id_counter_advance (lines : List DiffLine) (display_context : Nat)
    (gap_expansions : GapExpansions) (gap_id_offset : Nat) :
    (filterHunkLines lines display_context gap_expansions gap_id_offset).2
      = gap_id_offset
        + ((contextRuns lines).map (runWeight display_context)).sum := by
  exact filterAux_counter display_context gap_expansions lines 0 gap_id_offset

/-! ### Determinism -/

/-- C3 — Determinism: `build_display_map` is a pure function of
`(delta, view_mode, context_window, gap_expansions)`; two calls on equal
inputs return equal row sequences (in particular equal `gap_id` values on
the collapsed-indicator rows, since the rows are equal as values). -/
theorem build_display_map_deterministic (d₁ d₂ : FileDelta)
    (m₁ m₂ : DiffViewMode) (c₁ c₂ : Nat) (e₁ e₂ : GapExpansions)
    (hd : d₁ = d₂) (hm : m₁ = m₂) (hc : c₁ = c₂) (he : e₁ = e₂) :
    buildDisplayMap d₁ m₁ c₁ e₁ = buildDisplayMap d₂ m₂ c₂ e₂ := by
  subst hd hm hc he
  rfl

/-- Witness for C3 at a concrete delta, mode, window and expansion map. -/
theorem build_display_map_deterministic_witness :
    buildDisplayMap exDelta DiffViewMode.Split 3 [(0, 2)]
      = buildDisplayMap exDelta DiffViewMode.Split 3 [(0, 2)] :=
  build_display_map_deterministic exDelta exDelta DiffViewMode.Split
    DiffViewMode.Split 3 3 [(0, 2)] [(0, 2)] rfl rfl rfl rfl

/-! ### Empty inputs -/

theorem filterHunkLines_nil (ctx : Nat) (exp : GapExpansions) (off : Nat) :
    filterHunkLines [] ctx exp off = ([], off) := by
  simp [filterHunkLines, filterAux]

theorem splitHunks_empty_lines (ctx : Nat) (exp : GapExpansions) :
    ∀ (hs : List Hunk) (idx off : Nat), (∀ h ∈ hs, h.lines = []) →
      splitHunks ctx exp hs idx off = (List.range' idx hs.length).map headerRow := by
  intro hs
  induction hs with
  | nil => intro idx off _; rfl
  | cons h hs ih =>
    intro idx off hemp
    have hl : h.lines = [] := hemp h (List.mem_cons_self h hs)
    simp only [splitHunks, hl, filterHunkLines_nil, splitWalk, List.length_cons,
      List.range'_succ, List.map_cons]
    rw [ih (idx + 1) off fun x hx => hemp x (List.mem_cons_of_mem h hx)]
    rfl

theorem unifiedHunks_empty_lines (ctx : Nat) (exp : GapExpansions) :
    ∀ (hs : List Hunk) (idx off : Nat), (∀ h ∈ hs, h.lines = []) →
      unifiedHunks ctx exp hs idx off = (List.range' idx hs.length).map headerRow := by
  intro hs
  induction hs with
  | nil => intro idx off _; rfl
  | cons h hs ih =>
    intro idx off hemp
    have hl : h.lines = [] := hemp h (List.mem_cons_self h hs)
    simp only [unifiedHunks, hl, filterHunkLines_nil, unifiedWalk, List.map_nil,
      List.length_cons, List.range'_succ, List.map_cons]
    rw [ih (idx + 1) off fun x hx => hemp x (List.mem_cons_of_mem h hx)]
    rfl

/-- C5 (counterexample) — a delta whose single hunk has an empty line list
yields a non-empty row sequence (the hunk header row), contradicting the
claim that the result is empty in that case. -/
theorem build_display_map_empty_hunk_nonempty :
    ¬ buildDisplayMap exEmptyHunkDelta DiffViewMode.Unified 3 [] = [] := by
  simp [buildDisplayMap, buildUnifiedDisplayMap, unifiedHunks, filterHunkLines_nil,
    exEmptyHunkDelta]

/-- C5 (amended) — Empty-input contract: for every view mode, context window
and gap-expansion map, `build_display_map` (which is total, hence
panic-free) returns the empty row sequence on a delta with no hunks, and on
a delta whose hunks all have empty line lists it returns exactly one header
row per hunk and nothing else. -/
theorem build_display_map_empty_inputs (mode : DiffViewMode)
    (display_context : Nat) (gap_expansions : GapExpansions) :
    (∀ delta : FileDelta, delta.hunks = [] →
      buildDisplayMap delta mode display_context gap_expansions = [])
    ∧ ∀ delta : FileDelta, (∀ h ∈ delta.hunks, h.lines = []) →
        buildDisplayMap delta mode display_context gap_expansions
          = (List.range delta.hunks.length).map headerRow := by
  constructor
  · intro delta hd
    cases mode <;>
      simp [buildDisplayMap, buildSplitDisplayMap, buildUnifiedDisplayMap,
        splitHunks, unifiedHunks, hd]
  · intro delta hlines
    have hr : List.range delta.hunks.length = List.range' 0 delta.hunks.length := by
      rw [List.range_eq_range']
    cases mode <;>
      simp [buildDisplayMap, buildSplitDisplayMap, buildUnifiedDisplayMap,
        splitHunks_empty_lines _ _ _ _ _ hlines,
        unifiedHunks_empty_lines _ _ _ _ _ hlines, hr]

/-- Witness for C5's amended claim: the no-hunks delta yields no rows; the
empty-lines hunk yields exactly its header row. -/
theorem build_display_map_empty_inputs_witness :
    buildDisplayMap exNoHunksDelta DiffViewMode.Split 3 [] = []
    ∧ buildDisplayMap exEmptyHunkDelta DiffViewMode.Unified 3 []
        = (List.range exEmptyHunkDelta.hunks.length).map headerRow :=
  ⟨(build_display_map_empty_inputs DiffViewMode.Split 3 []).1 exNoHunksDelta rfl,
   (build_display_map_empty_inputs DiffViewMode.Unified 3 []).2 exEmptyHunkDelta
     (by intro h hh; simp [exEmptyHunkDelta] at hh; simp [hh])⟩

/-! ### Anchor coverage -/

/-- C8 — Anchor coverage is a disjunction: `covers(old, new)` is true
exactly when the new line number is present and lies inside the anchor's
new-range, or the old line number is present and lies inside the anchor's
old-range; either match alone suffices. -/
theorem anchor_covers_disjunction (a : LineAnchor)
    (old_lineno new_lineno : Option Nat) :
    a.covers old_lineno new_lineno = true
      ↔ ((∃ n, new_lineno = some n ∧ inNewRange a n)
         ∨ (∃ n, old_lineno = some n ∧ inOldRange a n)) := by
  obtain ⟨fp, oldr, newr⟩ := a
  cases old_lineno <;> cases new_lineno <;>
    rcases oldr with - | ⟨s₁, e₁⟩ <;> rcases newr with - | ⟨s₂, e₂⟩ <;>
    simp [LineAnchor.covers, LineAnchor.covers_new, LineAnchor.covers_old,
      inNewRange, inOldRange] <;>
    aesop

/-! ### Annotation navigation -/

theorem keyLe_refl (x : String × Nat) : keyLe x x = true := by
  simp [keyLe]

theorem keyLe_trans (x y z : String × Nat) (h₁ : keyLe x y = true)
    (h₂ : keyLe y z = true) : keyLe x z = true := by
  simp only [keyLe, Bool.or_eq_true, Bool.and_eq_true, decide_eq_true_eq] at h₁ h₂ ⊢
  rcases h₁ with h₁ | ⟨h₁, h₁'⟩ <;> rcases h₂ with h₂ | ⟨h₂, h₂'⟩
  · exact Or.inl (lt_trans h₁ h₂)
  · exact Or.inl (h₂ ▸ h₁)
  · exact Or.inl (h₁ ▸ h₂)
  · exact Or.inr ⟨h₁.trans h₂, le_trans h₁' h₂'⟩

theorem keyLe_total (x y : String × Nat) : (keyLe x y || keyLe y x) = true := by
  simp only [keyLe, Bool.or_eq_true, Bool.and_eq_true, decide_eq_true_eq]
  rcases lt_trichotomy x.1 y.1 with h | h | h
  · exact Or.inl (Or.inl h)
  · rcases Nat.le_total x.2 y.2 with h2 | h2
    · exact Or.inl (Or.inr ⟨h, h2⟩)
    · exact Or.inr (Or.inr ⟨h.symm, h2⟩)
  · exact Or.inr (Or.inl h)

theorem keyLe_iff_lexLe (x y : String × Nat) :
    keyLe x y = true ↔ lexLe x y := by
  simp [keyLe, lexLe]

theorem keyGtPos_iff (a : Anno) (file_path : String) (lineno : Nat) :
    keyGtPos a file_path lineno = true ↔ lexLt (file_path, lineno) (annKey a) := by
  simp only [keyGtPos, lexLt, annKey, Bool.or_eq_true, Bool.and_eq_true,
    decide_eq_true_eq]
  constructor
  · rintro (h | ⟨h, h2⟩)
    · exact Or.inl h
    · exact Or.inr ⟨h.symm, h2⟩
  · rintro (h | ⟨h, h2⟩)
    · exact Or.inl h
    · exact Or.inr ⟨h.symm, h2⟩

theorem find?_min_of_pairwise (l : List Anno) (p : Anno → Bool) (a : Anno)
    (hpair : l.Pairwise fun x y => keyLe (annKey x) (annKey y) = true)
    (hfind : l.find? p = some a) :
    ∀ b ∈ l, p b = true → keyLe (annKey a) (annKey b) = true := by
  obtain ⟨hpa, as_, bs, rfl, hnone⟩ := List.find?_eq_some.mp hfind
  intro b hb hpb
  rcases List.mem_append.mp hb with hb | hb
  · exact absurd hpb (by simpa using hnone b hb)
  · rcases List.mem_cons.mp hb with rfl | hb
    · exact keyLe_refl _
    · have hsub : (a :: bs).Pairwise fun x y => keyLe (annKey x) (annKey y) = true :=
        hpair.sublist (List.sublist_append_right as_ (a :: bs))
      exact List.rel_of_pairwise_cons hsub hb

/-- C9 — Navigation wraparound: on a non-empty store, `next_after` returns
the key of a minimal annotation strictly after the queried `(path, line)`
position in the lexicographic `(file path, representative line)` order, and
when no annotation is strictly after the position it returns the key of a
minimal annotation of the whole ordering (wraparound) rather than `none`. -/
theorem next_after_wraparound (s : AnnotationState) (file_path : String)
    (lineno : Nat) (hne : s.allAnnos ≠ []) :
    nextAfterSpec s file_path lineno := by
  have hpair : s.all_sorted.Pairwise
      (fun x y => keyLe (annKey x) (annKey y) = true) :=
    List.sorted_mergeSort
      (fun x y z => keyLe_trans (annKey x) (annKey y) (annKey z))
      (fun x y => keyLe_total (annKey x) (annKey y)) s.allAnnos
  have hperm : s.all_sorted.Perm s.allAnnos :=
    List.mergeSort_perm s.allAnnos _
  constructor
  · rintro ⟨a0, ha0mem, ha0gt⟩
    cases hfind : s.all_sorted.find? (fun a => keyGtPos a file_path lineno) with
    | none =>
      exfalso
      have := List.find?_eq_none.mp hfind a0 (hperm.mem_iff.mpr ha0mem)
      exact this ((keyGtPos_iff a0 file_path lineno).mpr ha0gt)
    | some a =>
      refine ⟨a, hperm.mem_iff.mp (List.mem_of_find?_eq_some hfind), ?_, ?_, ?_⟩
      · simp [AnnotationState.next_after, hfind, annKey]
      · have hpa := List.find?_some hfind
        exact (keyGtPos_iff a file_path lineno).mp (by simpa using hpa)
      · intro b hb hgt
        refine (keyLe_iff_lexLe _ _).mp ?_
        exact find?_min_of_pairwise _ _ _ hpair hfind b (hperm.mem_iff.mpr hb)
          ((keyGtPos_iff b file_path lineno).mpr hgt)
  · intro hnone
    have hfind : s.all_sorted.find? (fun a => keyGtPos a file_path lineno) = none := by
      refine List.find?_eq_none.mpr fun a ha => ?_
      have := hnone a (hperm.mem_iff.mp ha)
      simpa [keyGtPos_iff] using this
    obtain ⟨x, xs, hx⟩ : ∃ x xs, s.all_sorted = x :: xs := by
      cases hs : s.all_sorted with
      | nil =>
        exfalso
        exact hne (List.Perm.eq_nil (hs ▸ hperm).symm)
      | cons x xs => exact ⟨x, xs, rfl⟩
    refine ⟨x, hperm.mem_iff.mp (by simp [hx]), ?_, ?_⟩
    · have hfind2 := hfind
      rw [hx] at hfind2
      simp [AnnotationState.next_after, hx, hfind2, annKey]
    · intro b hb
      refine (keyLe_iff_lexLe _ _).mp ?_
      have hbmem : b ∈ s.all_sorted := hperm.mem_iff.mpr hb
      rw [hx] at hbmem hpair
      rcases List.mem_cons.mp hbmem with rfl | hbmem
      · exact keyLe_refl _
      · exact List.rel_of_pairwise_cons hpair hbmem

/-- Witness for C9 on a concrete store: querying after `("a.rs", 3)`. -/
theorem next_after_wraparound_witness :
    exAnnState.allAnnos ≠ [] ∧ nextAfterSpec exAnnState "a.rs" 3 :=
  ⟨by decide, next_after_wraparound exAnnState "a.rs" 3 (by decide)⟩

/-! ### Wrap math -/

theorem wrapChunksGo_length (cw : Nat) (hcw : 0 < cw) (g : Span) (cg : String)
    (cs : Style) : ∀ (chars : List (Char × Style)) (f : Bool),
    (wrapChunksGo cw hcw g cg cs chars f).length
      = if chars.length = 0 then 0 else (chars.length - 1) / cw + 1 := by
  intro chars f
  induction chars, f using wrapChunksGo.induct cw hcw g cg cs with
  | case1 f => simp [wrapChunksGo]
  | case2 c cs' f' restc ih =>
    unfold_let restc at ih
    simp only [wrapChunksGo, List.length_cons]
    rw [ih]
    simp only [List.length_drop, List.length_cons]
    rcases Nat.lt_or_ge (cs'.length + 1) (cw + 1) with hlt | hge
    · have h0 : cs'.length + 1 - cw = 0 := by omega
      have h1 : cs'.length / cw = 0 := Nat.div_eq_of_lt (by omega)
      simp [h0, h1]
    · have h0 : ¬(cs'.length + 1 - cw = 0) := by omega
      have h2 : cs'.length + 1 - 1 = (cs'.length + 1 - cw - 1) + cw := by omega
      simp only [h0, if_false, List.length_cons]
      have h3 : ¬(cs'.length + 1 = 0) := by omega
      simp only [h3, if_false]
      rw [h2, Nat.add_div_right _ hcw]

theorem wrapChunksGo_ne_nil (cw : Nat) (hcw : 0 < cw) (g : Span) (cg : String)
    (cs : Style) (chars : List (Char × Style)) (f : Bool) (hne : chars ≠ []) :
    wrapChunksGo cw hcw g cg cs chars f ≠ [] := by
  cases chars with
  | nil => exact absurd rfl hne
  | cons c cs' => simp [wrapChunksGo]

theorem wrapChunksGo_head (cw : Nat) (hcw : 0 < cw) (g : Span) (cg : String)
    (cs : Style) (chars : List (Char × Style)) (hne : chars ≠ []) :
    ((wrapChunksGo cw hcw g cg cs chars true).head?.map fun l => l.spans.head?)
      = some (some g) := by
  cases chars with
  | nil => exact absurd rfl hne
  | cons c cs' => simp [wrapChunksGo]

theorem wrapChunksGo_later (cw : Nat) (hcw : 0 < cw) (g : Span) (cg : String)
    (cs : Style) : ∀ (chars : List (Char × Style)) (f : Bool) (j : Nat) (row : Line),
    (wrapChunksGo cw hcw g cg cs chars f)[j]? = some row →
    (f = false ∨ 1 ≤ j) →
    row.spans.head? = some ⟨cg, cs⟩ := by
  intro chars f
  induction chars, f using wrapChunksGo.induct cw hcw g cg cs with
  | case1 f => intro j row hrow _; simp [wrapChunksGo] at hrow
  | case2 c cs' f' restc ih =>
    unfold_let restc at ih
    intro j row hrow hj
    cases j with
    | zero =>
      rcases hj with hj | hj
      · subst hj
        simp only [wrapChunksGo, Bool.false_eq_true, if_false,
          List.getElem?_cons_zero, Option.some.injEq] at hrow
        subst hrow
        rfl
      · omega
    | succ j =>
      simp only [wrapChunksGo, List.getElem?_cons_succ] at hrow
      exact ih j row hrow (Or.inl rfl)

theorem flatChars_length (spans : List Span) :
    (spans.flatMap fun sp => sp.content.toList.map fun ch => (ch, sp.style)).length
      = (spans.map Span.width).sum := by
  induction spans with
  | nil => rfl
  | cons sp rest ih =>
    simp only [List.flatMap_cons, List.length_append, List.length_map, ih,
      List.map_cons, List.sum_cons]
    rfl

theorem wrap_single_length_pos (l : Line) (w g : Nat) (we : Bool) (th : Theme) :
    0 < (wrap_single_line_for_display l w g we th).length := by
  rw [wrap_single_line_for_display]
  by_cases h1 : (!we || w == 0) = true
  · rw [if_pos h1]; simp
  · rw [if_neg h1]
    try dsimp only
    by_cases h2 : w - g = 0
    · rw [dif_pos h2]; simp
    · rw [dif_neg h2]
      try dsimp only
      by_cases h3 : (l.spans.map Span.width).sum ≤ w
      · rw [if_pos h3]; simp
      · rw [if_neg h3]
        cases hsp : l.spans with
        | nil => simp
        | cons gs cspans =>
          try dsimp only
          by_cases h4 : (cspans.flatMap fun sp =>
              sp.content.toList.map fun ch => (ch, sp.style)).isEmpty = true
          · rw [if_pos h4]; simp
          · rw [if_neg h4]
            have := wrapChunksGo_ne_nil (w - g) (Nat.pos_of_ne_zero h2) gs
              (spaces (g - 1) ++ "↪") (gs.style.setFg th.text_muted)
              (cspans.flatMap fun sp => sp.content.toList.map fun ch => (ch, sp.style))
              true (by simpa using h4)
            simpa [List.length_pos] using this

/-- C6 — Wrap math: (a) a row whose total rendered width fits within the
target width is returned as a single visual row, never split; (b) a row of
203 content characters with effective content width 50 after gutter
reservation wraps to exactly `⌈203/50⌉ = 5` visual rows, the first keeping
the original gutter span and the later ones carrying the continuation
gutter marker. -/
theorem wrap_math :
    (∀ (line : Line) (width gutter_width : Nat) (wrap_enabled : Bool) (theme : Theme),
      (line.spans.map Span.width).sum ≤ width →
      wrap_single_line_for_display line width gutter_width wrap_enabled theme = [line])
    ∧ ∀ (gutter_span : Span) (content_spans : List Span) (gutter_width : Nat)
        (theme : Theme),
        gutter_span.width = gutter_width →
        (content_spans.map Span.width).sum = 203 →
        (wrap_single_line_for_display (Line.mk (gutter_span :: content_spans))
            (gutter_width + 50) gutter_width true theme).length = 5
        ∧ ((wrap_single_line_for_display (Line.mk (gutter_span :: content_spans))
              (gutter_width + 50) gutter_width true theme).head?.map
            fun l => l.spans.head?) = some (some gutter_span)
        ∧ ∀ j row, 1 ≤ j →
            (wrap_single_line_for_display (Line.mk (gutter_span :: content_spans))
              (gutter_width + 50) gutter_width true theme)[j]? = some row →
            row.spans.head? = some ⟨spaces (gutter_width - 1) ++ "↪",
              gutter_span.style.setFg theme.text_muted⟩ := by
  constructor
  · intro line width gutter_width wrap_enabled theme hfits
    rw [wrap_single_line_for_display]
    by_cases h1 : (!wrap_enabled || width == 0) = true
    · rw [if_pos h1]
    · rw [if_neg h1]
      try dsimp only
      by_cases h2 : width - gutter_width = 0
      · rw [dif_pos h2]
      · rw [dif_neg h2]
        try dsimp only
        rw [if_pos hfits]
  · intro gutter_span content_spans g theme hg hsum
    have hchars : (content_spans.flatMap fun sp =>
        sp.content.toList.map fun ch => (ch, sp.style)).length = 203 := by
      rw [flatChars_length, hsum]
    have hne : (content_spans.flatMap fun sp =>
        sp.content.toList.map fun ch => (ch, sp.style)) ≠ [] := by
      intro h
      rw [h] at hchars
      simp at hchars
    have hres : wrap_single_line_for_display (Line.mk (gutter_span :: content_spans))
        (g + 50) g true theme
        = wrapChunksGo (g + 50 - g) (by omega) gutter_span (spaces (g - 1) ++ "↪")
            (gutter_span.style.setFg theme.text_muted)
            (content_spans.flatMap fun sp => sp.content.toList.map fun ch => (ch, sp.style))
            true := by
      rw [wrap_single_line_for_display]
      have hc1 : ¬((!true || (g + 50) == 0) = true) := by simp
      have hc2 : ¬(g + 50 - g = 0) := by omega
      have hc3 : ¬((Line.mk (gutter_span :: content_spans)).spans.map Span.width).sum
          ≤ g + 50 := by
        simp only [List.map_cons, List.sum_cons, hg, hsum]
        omega
      rw [if_neg hc1]
      try dsimp only
      rw [dif_neg hc2]
      try dsimp only
      rw [if_neg hc3]
      try dsimp only
      rw [if_neg (by simpa using hne)]
    have hcw : g + 50 - g = 50 := by omega
    refine ⟨?_, ?_, ?_⟩
    · rw [hres, wrapChunksGo_length]
      simp only [hchars]
      norm_num [hcw]
    · rw [hres]
      exact wrapChunksGo_head _ _ _ _ _ _ hne
    · intro j row hj hrow
      rw [hres] at hrow
      exact wrapChunksGo_later _ _ _ _ _ _ true j row hrow (Or.inr hj)

set_option maxRecDepth 8000 in
/-- Witness for C6: an 11-character row fits in width 20 and stays whole; a
203-character content row with gutter width 6 and width 56 wraps to 5 visual
rows with the continuation marker on rows 2–5. -/
theorem wrap_math_witness :
    wrap_single_line_for_display
        (Line.mk [⟨"12345 ", Style.base⟩, ⟨"hello", Style.base⟩]) 20 6 true exTheme
      = [Line.mk [⟨"12345 ", Style.base⟩, ⟨"hello", Style.base⟩]]
    ∧ ((wrap_single_line_for_display
          (Line.mk (⟨"12345 ", Style.base⟩ :: [⟨ex203, Style.base⟩]))
          (6 + 50) 6 true exTheme).length = 5
       ∧ ((wrap_single_line_for_display
            (Line.mk (⟨"12345 ", Style.base⟩ :: [⟨ex203, Style.base⟩]))
            (6 + 50) 6 true exTheme).head?.map fun l => l.spans.head?)
          = some (some ⟨"12345 ", Style.base⟩)
       ∧ ∀ j row, 1 ≤ j →
          (wrap_single_line_for_display
            (Line.mk (⟨"12345 ", Style.base⟩ :: [⟨ex203, Style.base⟩]))
            (6 + 50) 6 true exTheme)[j]? = some row →
          row.spans.head? = some ⟨spaces (6 - 1) ++ "↪",
            (⟨"12345 ", Style.base⟩ : Span).style.setFg exTheme.text_muted⟩) :=
  ⟨wrap_math.1 (Line.mk [⟨"12345 ", Style.base⟩, ⟨"hello", Style.base⟩])
     20 6 true exTheme (by decide),
   wrap_math.2 ⟨"12345 ", Style.base⟩ [⟨ex203, Style.base⟩] 6 exTheme (by decide)
     (by decide)⟩

/-! ### Dual-pane symmetry -/

theorem splitPairLines_len (delta : FileDelta)
    (old_hl new_hl : List (List HighlightSpan)) (state : AppStateModel)
    (dm : List DisplayRowInfo) (theme : Theme) :
    ∀ (dels adds : List DiffLine) (dr : Nat),
      (splitPairLines delta old_hl new_hl state dm theme dels adds dr).1.length
        = (splitPairLines delta old_hl new_hl state dm theme dels adds dr).2.1.length := by
  intro dels adds dr
  induction dels, adds, dr using splitPairLines.induct delta old_hl new_hl state dm theme with
  | case1 dr => simp [splitPairLines]
  | case2 d ds dr ih => simp [splitPairLines, ih]
  | case3 a as_ dr ih => simp [splitPairLines, ih]
  | case4 d ds a as_ dr ih => simp [splitPairLines, ih]

theorem splitCoreItems_len (delta : FileDelta)
    (old_hl new_hl : List (List HighlightSpan)) (state : AppStateModel)
    (dm : List DisplayRowInfo) (theme : Theme) :
    ∀ (items : List FilteredItem) (dr : Nat),
      (splitCoreItems delta old_hl new_hl state dm theme items dr).1.length
        = (splitCoreItems delta old_hl new_hl state dm theme items dr).2.1.length := by
  intro items dr
  induction items, dr using splitCoreItems.induct delta old_hl new_hl state dm theme with
  | case1 dr => simp [splitCoreItems]
  | case2 dr rest hidden gid _dir ih =>
    simp [splitCoreItems, ih]
  | case3 dr rest l k ho ih =>
    simp only [splitCoreItems]
    split
    · simp [ih]
    · rename_i heq; simp [ho] at heq
    · rename_i heq; simp [ho] at heq
  | case4 dr rest l k ho ih =>
    simp only [splitCoreItems]
    split
    · rename_i heq; simp [ho] at heq
    · simp [ih]
    · rename_i heq; simp [ho] at heq
  | case5 dr rest l k ho dels rest1 adds rest2 pr ih =>
    unfold_let dels rest1 adds rest2 pr at ih
    simp only [splitCoreItems]
    split
    · rename_i heq; simp [ho] at heq
    · rename_i heq; simp [ho] at heq
    · simp only [List.length_append]
      rw [splitPairLines_len, ih]

theorem splitCoreGo_len (delta : FileDelta)
    (old_hl new_hl : List (List HighlightSpan)) (state : AppStateModel)
    (dm : List DisplayRowInfo) (theme : Theme) :
    ∀ (hs : List Hunk) (dr off : Nat),
      (splitCoreGo delta old_hl new_hl state dm theme hs dr off).1.length
        = (splitCoreGo delta old_hl new_hl state dm theme hs dr off).2.length := by
  intro hs
  induction hs with
  | nil => intro dr off; rfl
  | cons h hs ih =>
    intro dr off
    simp only [splitCoreGo, List.length_cons, List.length_append]
    rw [splitCoreItems_len, ih]

theorem emitRows_len (lw rw : List Line) :
    ∀ (i mh height : Nat),
      (emitRows lw rw i mh height).1.length = (emitRows lw rw i mh height).2.1.length := by
  intro i mh height
  induction i, mh, height using emitRows.induct lw rw with
  | case1 i mh h1 =>
    rw [emitRows]
    simp [h1]
  | case2 i mh height h1 h2 ih =>
    rw [emitRows]
    simp [h1, h2, ih]
  | case3 i mh height h1 =>
    rw [emitRows]
    simp [h1]

theorem wrapSyncGo_len (w g : Nat) (we : Bool) (th : Theme) :
    ∀ (pairs : List (Line × Line)) (skip height : Nat),
      (wrapSyncGo w g we th pairs skip height).1.length
        = (wrapSyncGo w g we th pairs skip height).2.length := by
  intro pairs skip height
  induction pairs, skip, height using wrapSyncGo.induct w g we th with
  | case1 skip height => simp [wrapSyncGo]
  | case2 l r rest skip height lw rw mh hskip ih =>
    unfold_let lw rw mh at hskip ih
    simp only [wrapSyncGo, if_pos hskip]
    exact ih
  | case3 l r rest skip height lw rw mh hskip er h0 =>
    unfold_let lw rw mh er at hskip h0
    simp only [wrapSyncGo, if_neg hskip, if_pos h0]
    exact emitRows_len _ _ _ _ _
  | case4 l r rest skip height lw rw mh hskip er h0 ih =>
    unfold_let lw rw mh er at hskip h0 ih
    simp only [wrapSyncGo, if_neg hskip, if_neg h0, List.length_append]
    rw [emitRows_len, ih]

theorem padTo_drop_succ (l : List Line) (i n : Nat) (hn : 0 < n) :
    padTo (l.drop i) n = (l[i]?.getD default) :: padTo (l.drop (i + 1)) (n - 1) := by
  by_cases hi : i < l.length
  · rw [List.drop_eq_getElem_cons hi]
    have hg : l[i]? = some l[i] := List.getElem?_eq_getElem hi
    simp only [padTo, hg, Option.getD_some, List.cons_append, List.length_cons,
      List.length_drop]
    have hcount : n - (l.length - (i + 1) + 1) = n - 1 - (l.length - (i + 1)) := by
      omega
    rw [hcount]
  · have h1 : l.drop i = [] := List.drop_eq_nil_of_le (by omega)
    have h2 : l.drop (i + 1) = [] := List.drop_eq_nil_of_le (by omega)
    have h3 : l[i]? = none := List.getElem?_eq_none (by omega)
    simp only [padTo, h1, h2, h3, Option.getD_none, List.nil_append, List.length_nil,
      Nat.sub_zero]
    cases n with
    | zero => omega
    | succ m => simp [List.replicate_succ]

theorem emitRows_spec (lw rw : List Line) :
    ∀ (i mh height : Nat), lw.length ≤ mh → rw.length ≤ mh → mh - i ≤ height →
      emitRows lw rw i mh height
        = (padTo (lw.drop i) (mh - i), padTo (rw.drop i) (mh - i),
           height - (mh - i)) := by
  intro i mh height
  induction i, mh, height using emitRows.induct lw rw with
  | case1 i mh h1 =>
    intro hlw hrw hle
    omega
  | case2 i mh height h1 h2 ih =>
    intro hlw hrw hle
    have hrec := ih hlw hrw (by omega)
    simp only [emitRows, dif_pos h1, if_neg h2, hrec]
    rw [padTo_drop_succ lw i (mh - i) (by omega), padTo_drop_succ rw i (mh - i) (by omega)]
    have he1 : mh - (i + 1) = mh - i - 1 := by omega
    rw [he1]
    simp only [Prod.mk.injEq, true_and, and_true]
    omega
  | case3 i mh height h1 =>
    intro hlw hrw hle
    have h0 : mh - i = 0 := by omega
    have hd1 : lw.drop i = [] := List.drop_eq_nil_of_le (by omega)
    have hd2 : rw.drop i = [] := List.drop_eq_nil_of_le (by omega)
    simp [emitRows, h1, h0, hd1, hd2, padTo]

theorem syncHeightSum_zero (w g : Nat) (we : Bool) (th : Theme)
    (pairs : List (Line × Line)) (h : syncHeightSum w g we th pairs = 0) :
    pairs = [] := by
  cases pairs with
  | nil => rfl
  | cons p rest =>
    exfalso
    have hpos : 0 < pairMaxHeight w g we th p := by
      have := wrap_single_length_pos p.1 w g we th
      simp only [pairMaxHeight]
      omega
    simp only [syncHeightSum, List.map_cons, List.sum_cons] at h
    omega

theorem wrapSyncGo_full (w g : Nat) (we : Bool) (th : Theme) :
    ∀ (pairs : List (Line × Line)) (height : Nat),
      syncHeightSum w g we th pairs ≤ height →
      wrapSyncGo w g we th pairs 0 height
        = (((pairs.map fun p => padTo (wrap_single_line_for_display p.1 w g we th)
              (pairMaxHeight w g we th p))).flatten,
           ((pairs.map fun p => padTo (wrap_single_line_for_display p.2 w g we th)
              (pairMaxHeight w g we th p))).flatten) := by
  intro pairs
  induction pairs with
  | nil => intro height _; rfl
  | cons p rest ih =>
    intro height hsum
    obtain ⟨l, r⟩ := p
    have hmh : 0 < max (wrap_single_line_for_display l w g we th).length
        (wrap_single_line_for_display r w g we th).length := by
      have := wrap_single_length_pos l w g we th
      omega
    have hsum2 : max (wrap_single_line_for_display l w g we th).length
          (wrap_single_line_for_display r w g we th).length
        + syncHeightSum w g we th rest ≤ height := by
      simpa [syncHeightSum, pairMaxHeight] using hsum
    simp only [wrapSyncGo, if_neg (by omega : ¬ 0 ≥ max
      (wrap_single_line_for_display l w g we th).length
      (wrap_single_line_for_display r w g we th).length)]
    rw [emitRows_spec _ _ 0 _ height (le_max_left _ _) (le_max_right _ _) (by omega)]
    simp only [List.drop_zero, Nat.sub_zero]
    by_cases hz : height - max (wrap_single_line_for_display l w g we th).length
        (wrap_single_line_for_display r w g we th).length = 0
    · have hrest : rest = [] := syncHeightSum_zero w g we th rest (by omega)
      subst hrest
      simp [hz, pairMaxHeight]
    · rw [if_neg hz]
      rw [ih (height - max (wrap_single_line_for_display l w g we th).length
          (wrap_single_line_for_display r w g we th).length) (by omega)]
      simp [pairMaxHeight]

/-- C2 — Dual-pane symmetry: `build_split_lines_core` returns left and right
line sequences of equal length; synchronized wrapping of equal-length inputs
returns equal-length outputs; and with no scroll and enough height each
logical row occupies `max(left wrapped height, right wrapped height)` visual
rows on both sides, the shorter side padded with blank rows, so the final
sequences agree in length row by row. -/
theorem dual_pane_symmetry :
    (∀ (delta : FileDelta) (old_hl new_hl : List (List HighlightSpan))
        (state : AppStateModel) (dm : List DisplayRowInfo) (theme : Theme),
      (build_split_lines_core delta old_hl new_hl state dm theme).1.length
        = (build_split_lines_core delta old_hl new_hl state dm theme).2.length)
    ∧ (∀ (left right : List Line) (w g : Nat) (we : Bool) (sv h : Nat) (th : Theme),
        left.length = right.length →
        (wrap_split_lines_synchronized_with_scroll left right w g we sv h th).1.length
          = (wrap_split_lines_synchronized_with_scroll left right w g we sv h th).2.length)
    ∧ ∀ (left right : List Line) (w g h : Nat) (th : Theme),
        ¬(w == 0) = true →
        syncHeightSum w g true th (left.zip right) ≤ h →
        wrap_split_lines_synchronized_with_scroll left right w g true 0 h th
          = ((((left.zip right).map fun p =>
                padTo (wrap_single_line_for_display p.1 w g true th)
                  (pairMaxHeight w g true th p))).flatten,
             (((left.zip right).map fun p =>
                padTo (wrap_single_line_for_display p.2 w g true th)
                  (pairMaxHeight w g true th p))).flatten) := by
  refine ⟨?_, ?_, ?_⟩
  · intro delta old_hl new_hl state dm theme
    exact splitCoreGo_len delta old_hl new_hl state dm theme delta.hunks 0 0
  · intro left right w g we sv h th hlen
    rw [wrap_split_lines_synchronized_with_scroll]
    split_ifs
    · rfl
    · simp [hlen]
    · exact wrapSyncGo_len w g we th _ sv h
  · intro left right w g h th hw hsum
    rw [wrap_split_lines_synchronized_with_scroll]
    by_cases hh : h = 0
    · subst hh
      have hz : left.zip right = [] :=
        syncHeightSum_zero w g true th _ (by omega)
      simp [hz]
    · rw [if_neg hh, if_neg (by simp [hw])]
      exact wrapSyncGo_full w g true th _ h hsum

/-- Witness for C2: a concrete delta/state for the core builder, and
concrete short rows for the wrapper. -/
theorem dual_pane_symmetry_witness :
    ((build_split_lines_core exDelta [] [] exState [] exTheme).1.length
      = (build_split_lines_core exDelta [] [] exState [] exTheme).2.length)
    ∧ ((wrap_split_lines_synchronized_with_scroll
          [Line.mk [⟨"12345 ", Style.base⟩, ⟨"hello", Style.base⟩]]
          [Line.mk [⟨"12345 ", Style.base⟩, ⟨"hi", Style.base⟩]]
          30 6 true 0 2 exTheme).1.length
        = (wrap_split_lines_synchronized_with_scroll
          [Line.mk [⟨"12345 ", Style.base⟩, ⟨"hello", Style.base⟩]]
          [Line.mk [⟨"12345 ", Style.base⟩, ⟨"hi", Style.base⟩]]
          30 6 true 0 2 exTheme).2.length)
    ∧ wrap_split_lines_synchronized_with_scroll
          [Line.mk [⟨"12345 ", Style.base⟩, ⟨"hello", Style.base⟩]]
          [Line.mk [⟨"12345 ", Style.base⟩, ⟨"hi", Style.base⟩]]
          30 6 true 0 2 exTheme
        = (((([Line.mk [⟨"12345 ", Style.base⟩, ⟨"hello", Style.base⟩]].zip
              [Line.mk [⟨"12345 ", Style.base⟩, ⟨"hi", Style.base⟩]]).map fun p =>
                padTo (wrap_single_line_for_display p.1 30 6 true exTheme)
                  (pairMaxHeight 30 6 true exTheme p))).flatten,
           ((([Line.mk [⟨"12345 ", Style.base⟩, ⟨"hello", Style.base⟩]].zip
              [Line.mk [⟨"12345 ", Style.base⟩, ⟨"hi", Style.base⟩]]).map fun p =>
                padTo (wrap_single_line_for_display p.2 30 6 true exTheme)
                  (pairMaxHeight 30 6 true exTheme p))).flatten) :=
  ⟨dual_pane_symmetry.1 exDelta [] [] exState [] exTheme,
   dual_pane_symmetry.2.1 _ _ 30 6 true 0 2 exTheme (by rfl),
   dual_pane_symmetry.2.2 _ _ 30 6 2 exTheme (by decide) (by decide)⟩

/-! ### Split-mode change-block pairing -/

theorem pairRows_length (hk : Nat) (dels adds : List (DiffLine × Nat)) :
    (pairRows hk dels adds).length = max dels.length adds.length := by
  induction dels, adds using pairRows.induct hk <;>
    simp only [pairRows, List.length_cons, List.length_nil, *] <;>
    omega

theorem pairRows_getElem (hk : Nat) (dels adds : List (DiffLine × Nat)) :
    ∀ j row, (pairRows hk dels adds)[j]? = some row →
      row.old_lineno = (dels[j]?).bind (fun d => d.1.old_lineno)
      ∧ row.new_lineno = (adds[j]?).bind (fun a => a.1.new_lineno)
      ∧ row.origin = some (if j < dels.length then DiffLineOrigin.Deletion
          else DiffLineOrigin.Addition) := by
  induction dels, adds using pairRows.induct hk with
  | case1 =>
    intro j row hrow
    simp [pairRows] at hrow
  | case2 d ds ih =>
    intro j row hrow
    cases j with
    | zero =>
      simp only [pairRows, List.getElem?_cons_zero, Option.some.injEq] at hrow
      subst hrow
      simp
    | succ j =>
      simp only [pairRows, List.getElem?_cons_succ] at hrow ⊢
      have := ih j row hrow
      simpa [Nat.succ_lt_succ_iff] using this
  | case3 a as_ ih =>
    intro j row hrow
    cases j with
    | zero =>
      simp only [pairRows, List.getElem?_cons_zero, Option.some.injEq] at hrow
      subst hrow
      simp
    | succ j =>
      simp only [pairRows, List.getElem?_cons_succ] at hrow ⊢
      have := ih j row hrow
      simpa using this
  | case4 d ds a as_ ih =>
    intro j row hrow
    cases j with
    | zero =>
      simp only [pairRows, List.getElem?_cons_zero, Option.some.injEq] at hrow
      subst hrow
      simp
    | succ j =>
      simp only [pairRows, List.getElem?_cons_succ] at hrow ⊢
      have := ih j row hrow
      simpa [Nat.succ_lt_succ_iff] using this

/-- C4 — Split-mode pairing: for a maximal deletion block followed by a
maximal addition block in the gap-filter output, `build_split_display_map`
(through `pairRows`) emits exactly `max(D, A)` rows; row `j` carries
deletion `j`'s old line number while `j < D` and addition `j`'s new line
number while `j < A`, the exhausted side being `none`, with origin
`Deletion` while the left side is populated and `Addition` afterwards. -/
theorem split_change_block_pairing (hunk_idx : Nat)
    (dels adds : List (DiffLine × Nat)) :
    (pairRows hunk_idx dels adds).length = max dels.length adds.length
    ∧ ∀ j row, (pairRows hunk_idx dels adds)[j]? = some row →
        row.old_lineno = (dels[j]?).bind (fun d => d.1.old_lineno)
        ∧ row.new_lineno = (adds[j]?).bind (fun a => a.1.new_lineno)
        ∧ row.origin = some (if j < dels.length then DiffLineOrigin.Deletion
            else DiffLineOrigin.Addition) :=
  ⟨pairRows_length hunk_idx dels adds, pairRows_getElem hunk_idx dels adds⟩

/-- Witness for C4: 3 deletions and 1 addition produce exactly 3 rows;
row 1 keeps the deletion's old line number with a blank right side. -/
theorem split_change_block_pairing_witness :
    (pairRows 0 exDels3 exAdds1).length = max exDels3.length exAdds1.length
    ∧ ({ hunk_index := 0, line_index := some 2, old_lineno := some 11,
         new_lineno := none, origin := some DiffLineOrigin.Deletion,
         is_header := false, is_collapsed_indicator := false, gap_id := none,
         hidden_count := 0 : DisplayRowInfo }.old_lineno
          = (exDels3[1]?).bind (fun d => d.1.old_lineno)
       ∧ ({ hunk_index := 0, line_index := some 2, old_lineno := some 11,
            new_lineno := none, origin := some DiffLineOrigin.Deletion,
            is_header := false, is_collapsed_indicator := false, gap_id := none,
            hidden_count := 0 : DisplayRowInfo }.new_lineno
          = (exAdds1[1]?).bind (fun a => a.1.new_lineno))
       ∧ ({ hunk_index := 0, line_index := some 2, old_lineno := some 11,
            new_lineno := none, origin := some DiffLineOrigin.Deletion,
            is_header := false, is_collapsed_indicator := false, gap_id := none,
            hidden_count := 0 : DisplayRowInfo }.origin
          = some (if 1 < exDels3.length then DiffLineOrigin.Deletion
              else DiffLineOrigin.Addition))) :=
  ⟨(split_change_block_pairing 0 exDels3 exAdds1).1,
   (split_change_block_pairing 0 exDels3 exAdds1).2 1 _
     (by simp [pairRows, exDels3, exAdds1, mkDeletion, mkAddition])⟩

end MDiff
